import Mathlib

/-!
Verification development for the margin-annotation placement engine
(`highlights.py`).  The engine is embedded shallowly:

* PDF coordinates are exact rationals (`ℚ`).  The Python source computes with
  IEEE doubles; decimal literals such as `1.18` are modelled by the exact
  decimal rational.  All concrete documents used below keep every computed
  value exactly representable, so rounding differences cannot change any
  comparison.
* A `Page` packages what the engine reads from the host PDF library
  (PyMuPDF): the page rectangle, the `get_text("blocks")` output, the
  `get_text("words")` output and the text-search capability
  (`_search_page`).  These are external collaborators of the engine, so they
  are modelled as page data; drawing primitives are modelled as emitted
  `Effect`s.  The host search API is assumed to support case-insensitivity
  natively (`TEXT_IGNORECASE` exists in current PyMuPDF), so the
  case-variant expansion fallback of the source is never triggered.
* The host font-metric function `get_text_length(s, fontname, fontsize)` is
  modelled as `fontsize * Σ (cw c)` over the characters of `s`, where
  `cw : Char → ℚ` are the per-unit glyph widths of the resolved metric font;
  this is exactly how base-14 metrics behave.  The engine receives `cw`
  through its configuration (the source resolves it from
  `metric_fontname`).
* `uid` generation (`_make_uid`) is embedded bit-exactly: UTF-8 encoding,
  SHA-1, hex digest, first 12 characters.  Python's `round(x, 2)` is
  round-half-to-even on the exact value, and the float formatting of the
  rounded coordinate inside the f-string is reproduced for terminating
  two-decimal values (`75.0`, `97.5`, `12.25`, …), which is exact for every
  coordinate appearing in the concrete documents below.
* Python's stable `sorted` is modelled by a stable insertion sort with the
  strict lexicographic order on the sort key.
* Errors raised before any page processing (`"No valid queries."`) are
  modelled with `Except`; the success path is `runOk`.
-/

namespace Anny

/-- A rectangle `(x0, y0, x1, y1)` in page coordinates (origin top-left).
Models `fitz.Rect`; the 4-tuples produced by `_rect_tuple` are represented
by the same structure. -/
structure Rect where
  x0 : ℚ
  y0 : ℚ
  x1 : ℚ
  y1 : ℚ
deriving DecidableEq, Repr

/-- Width `x1 - x0`.  (PyMuPDF takes the absolute value; every rectangle
whose width the engine reads is valid, where the two agree.) -/
def Rect.w (r : Rect) : ℚ := r.x1 - r.x0

/-- Height `y1 - y0` (same caveat as `Rect.w`). -/
def Rect.h (r : Rect) : ℚ := r.y1 - r.y0

/-- `fitz.Rect.intersects`: the two rectangles share a non-empty (positive
area) intersection. -/
def Rect.intersects (a b : Rect) : Bool :=
  decide (max a.x0 b.x0 < min a.x1 b.x1) && decide (max a.y0 b.y0 < min a.y1 b.y1)

/-- `fitz.Rect.contains` for a point (closed rectangle). -/
def Rect.containsPt (r : Rect) (px py : ℚ) : Bool :=
  decide (r.x0 ≤ px) && decide (px ≤ r.x1) && decide (r.y0 ≤ py) && decide (py ≤ r.y1)

/-- Area of `a & b` (`fitz` intersection followed by `get_area`); zero when
the rectangles do not overlap. -/
def Rect.interArea (a b : Rect) : ℚ :=
  max 0 (min a.x1 b.x1 - max a.x0 b.x0) * max 0 (min a.y1 b.y1 - max a.y0 b.y0)

/-- Componentwise translation `r + (dx0, dy0, dx1, dy1)` of `fitz.Rect`. -/
def Rect.add4 (r : Rect) (dx0 dy0 dx1 dy1 : ℚ) : Rect :=
  ⟨r.x0 + dx0, r.y0 + dy0, r.x1 + dx1, r.y1 + dy1⟩

/-- `_intersects_any`. -/
def intersectsAny (r : Rect) (rects : List Rect) : Bool :=
  rects.any fun rr => r.intersects rr

/-- One entry of `page.get_text("words")`: a word bounding box. -/
structure Word where
  x0 : ℚ
  y0 : ℚ
  x1 : ℚ
  y1 : ℚ
deriving DecidableEq, Repr

/-- One entry of `page.get_text("blocks")`: a block bounding box plus its
text content `b[4]`. -/
structure Block where
  x0 : ℚ
  y0 : ℚ
  x1 : ℚ
  y1 : ℚ
  text : String
deriving DecidableEq, Repr

/-- What the engine reads from one PyMuPDF page: `page.number`,
`page.rect`, `page.get_text("blocks")`, `page.get_text("words")` and the
text-search capability `_search_page(page, q, flags)`. -/
structure Page where
  number : ℕ
  rect : Rect
  blocks : List Block
  words : List Word
  search : String → List Rect

/- ---------------------------------------------------------------------
SHA-1 (`hashlib.sha1`), over the UTF-8 bytes of the base string.
--------------------------------------------------------------------- -/

/-- UTF-8 encoding of one character. -/
def utf8Char (c : Char) : List ℕ :=
  let n := c.toNat
  if n < 0x80 then [n]
  else if n < 0x800 then [0xC0 + n / 0x40, 0x80 + n % 0x40]
  else if n < 0x10000 then
    [0xE0 + n / 0x1000, 0x80 + (n / 0x40) % 0x40, 0x80 + n % 0x40]
  else
    [0xF0 + n / 0x40000, 0x80 + (n / 0x1000) % 0x40, 0x80 + (n / 0x40) % 0x40,
     0x80 + n % 0x40]

/-- UTF-8 bytes of a string (`str.encode("utf-8")`). -/
def utf8Bytes (s : String) : List ℕ := s.data.flatMap utf8Char

/-- 32-bit truncation. -/
def m32 (x : ℕ) : ℕ := x % 4294967296

/-- 32-bit left rotation. -/
def rotl32 (n x : ℕ) : ℕ := m32 (x <<< n) + (x >>> (32 - n))

/-- 32-bit complement. -/
def not32 (x : ℕ) : ℕ := 4294967295 - x

/-- SHA-1 message padding: append `0x80`, zero bytes to 56 mod 64, then the
original bit length as 8 big-endian bytes. -/
def sha1Pad (msg : List ℕ) : List ℕ :=
  let zeros := (119 - msg.length % 64) % 64
  msg ++ [0x80] ++ List.replicate zeros 0 ++
    ((List.range 8).map fun i => (8 * msg.length) >>> (8 * (7 - i)) % 4294967296 % 256)

/-- Split a byte list into 64-byte chunks (fuel-based structural recursion;
the fuel `l.length` is always sufficient since each step consumes at least
one byte). -/
def chunks64Go (fuel : ℕ) (l : List ℕ) : List (List ℕ) :=
  match fuel, l with
  | 0, _ => []
  | _, [] => []
  | fuel + 1, l => l.take 64 :: chunks64Go fuel (l.drop 64)

/-- Split a byte list into 64-byte chunks. -/
def chunks64 (l : List ℕ) : List (List ℕ) := chunks64Go l.length l

/-- Big-endian 32-bit words of one 64-byte chunk. -/
def chunkWords (c : List ℕ) : List ℕ :=
  (List.range 16).map fun i =>
    (c.getD (4 * i) 0) * 16777216 + (c.getD (4 * i + 1) 0) * 65536 +
      (c.getD (4 * i + 2) 0) * 256 + c.getD (4 * i + 3) 0

/-- Message-schedule extension from 16 to 80 words. -/
def sha1Extend (ws : Array ℕ) : Array ℕ :=
  (List.range 64).foldl
    (fun a i =>
      let x := (a.getD (i + 13) 0) ^^^ (a.getD (i + 8) 0) ^^^ (a.getD (i + 2) 0) ^^^
        (a.getD i 0)
      a.push (rotl32 1 x))
    ws

/-- The SHA-1 round function for round `i`. -/
def sha1F (i b c d : ℕ) : ℕ :=
  if i < 20 then (b &&& c) ||| (not32 b &&& d)
  else if i < 40 then b ^^^ c ^^^ d
  else if i < 60 then (b &&& c) ||| (b &&& d) ||| (c &&& d)
  else b ^^^ c ^^^ d

/-- The SHA-1 round constant for round `i`. -/
def sha1K (i : ℕ) : ℕ :=
  if i < 20 then 0x5A827999
  else if i < 40 then 0x6ED9EBA1
  else if i < 60 then 0x8F1BBCDC
  else 0xCA62C1D6

/-- Process one 64-byte chunk into the running state `(h0, …, h4)`. -/
def sha1Chunk (st : ℕ × ℕ × ℕ × ℕ × ℕ) (c : List ℕ) : ℕ × ℕ × ℕ × ℕ × ℕ :=
  let w := sha1Extend (chunkWords c).toArray
  let ⟨h0, h1, h2, h3, h4⟩ := st
  let r := (List.range 80).foldl
    (fun (s : ℕ × ℕ × ℕ × ℕ × ℕ) i =>
      let ⟨a, b, cc, d, e⟩ := s
      let t := m32 (rotl32 5 a + sha1F i b cc d + e + sha1K i + w.getD i 0)
      (t, a, rotl32 30 b, cc, d))
    (h0, h1, h2, h3, h4)
  (m32 (h0 + r.1), m32 (h1 + r.2.1), m32 (h2 + r.2.2.1), m32 (h3 + r.2.2.2.1),
   m32 (h4 + r.2.2.2.2))

/-- SHA-1 digest of a byte list, as 20 bytes. -/
def sha1Bytes (msg : List ℕ) : List ℕ :=
  let ⟨h0, h1, h2, h3, h4⟩ := (chunks64 (sha1Pad msg)).foldl sha1Chunk
    (0x67452301, 0xEFCDAB89, 0x98BADCFE, 0x10325476, 0xC3D2E1F0)
  [h0, h1, h2, h3, h4].flatMap fun h =>
    [h >>> 24 % 256, h >>> 16 % 256, h >>> 8 % 256, h % 256]

/-- One lowercase hex digit. -/
def hexDigit (n : ℕ) : Char :=
  if n < 10 then Char.ofNat (48 + n) else Char.ofNat (87 + n)

/-- Lowercase hex characters of a byte list. -/
def hexChars (bs : List ℕ) : List Char :=
  bs.flatMap fun b => [hexDigit (b / 16), hexDigit (b % 16)]

/-- Lowercase hex string of a byte list (`hexdigest`). -/
def hexOfBytes (bs : List ℕ) : String := ⟨hexChars bs⟩

/-- `hashlib.sha1(s.encode("utf-8")).hexdigest()`. -/
def sha1Hex (s : String) : String := hexOfBytes (sha1Bytes (utf8Bytes s))

/- ---------------------------------------------------------------------
Python `round(x, 2)` and float formatting of the rounded coordinate.
--------------------------------------------------------------------- -/

/-- Floor of a rational, computed directly (kernel-reducible). -/
def ratFloor (q : ℚ) : ℤ := Int.fdiv q.num (q.den : ℤ)

/-- Round-half-to-even to an integer (Python's `round` on exact values). -/
def roundHalfEven (q : ℚ) : ℤ :=
  let f := ratFloor q
  let frac := q - (f : ℚ)
  if frac < 1/2 then f
  else if frac > 1/2 then f + 1
  else if f % 2 = 0 then f else f + 1

/-- `str(round(x, 2))` for a nonnegative coordinate `x`: the rounded value
printed the way Python prints a float whose shortest repr has at most two
decimals (`"75.0"`, `"97.5"`, `"12.25"`).  Page coordinates are nonnegative
in every document considered here. -/
def fmtRound2 (q : ℚ) : String :=
  let k := roundHalfEven (100 * q)
  let ip := Int.ediv k 100
  let frac := (Int.emod k 100).toNat
  if frac = 0 then s!"{ip}.0"
  else if frac % 10 = 0 then s!"{ip}.{frac / 10}"
  else if frac < 10 then s!"{ip}.0{frac}"
  else s!"{ip}.{frac}"

/-- `str.split()`: split on whitespace runs, dropping empty pieces
(accumulator holds the current word reversed). -/
def splitWsGo : List Char → List Char → List (List Char)
  | [], cur => if cur = [] then [] else [cur.reverse]
  | c :: rest, cur =>
    if c.isWhitespace then
      if cur = [] then splitWsGo rest [] else cur.reverse :: splitWsGo rest []
    else splitWsGo rest (c :: cur)

/-- `str.split()` on the character list of a string. -/
def splitWs (s : String) : List (List Char) := splitWsGo s.data []

/-- `" ".join(ctext.split()).lower()`: whitespace-normalised, lowercased
note text. -/
def normText (s : String) : String :=
  ⟨(List.intercalate [' '] (splitWs s)).map Char.toLower⟩

/-- `_make_uid`: truncated SHA-1 of `"{page}|{norm_ct}|{round(cx,2)}|{round(cy,2)}"`
(`hexdigest()[:12]`; the digest is ASCII, so the 12-character prefix is taken
on the character list). -/
def mkUid (pageIndex : ℕ) (normCt : String) (cx cy : ℚ) : String :=
  ⟨(hexChars (sha1Bytes (utf8Bytes
      s!"{pageIndex}|{normCt}|{fmtRound2 cx}|{fmtRound2 cy}"))).take 12⟩

/- ---------------------------------------------------------------------
Python's stable sort, modelled by stable insertion with a strict key order.
--------------------------------------------------------------------- -/

/-- Insert `x` after every element it is not strictly below (stable). -/
def insertStable (lt : α → α → Bool) (x : α) : List α → List α
  | [] => [x]
  | y :: ys => if lt x y then x :: y :: ys else y :: insertStable lt x ys

/-- Stable sort by a strict order `lt`; agrees with Python's `sorted` when
`lt` is the strict comparison of the sort key. -/
def pySortBy (lt : α → α → Bool) (l : List α) : List α :=
  l.foldl (fun acc x => insertStable lt x acc) []

/- ---------------------------------------------------------------------
`(b[4] or "").strip()` truthiness and friends.
--------------------------------------------------------------------- -/

/-- `s.strip() != ""`: the string contains a non-whitespace character. -/
def hasContent (s : String) : Bool := s.data.any fun c => !c.isWhitespace

/- ---------------------------------------------------------------------
Text wrapping with real font metrics (`_measure_height_smart`; the wrap
loop of `_wrap_with_font_metrics` is character-identical).
--------------------------------------------------------------------- -/

/-- Host `fitz.get_text_length(s, fontname, fontsize)`:
`fontsize` times the summed unit glyph widths `cw` of the characters. -/
def getLen (cw : Char → ℚ) (fontsize : ℚ) (s : String) : ℚ :=
  fontsize * (s.data.map cw).sum

/-- Split a character list at newlines (the pieces, in order). -/
def splitNlGo : List Char → List Char → List String
  | [], cur => [⟨cur.reverse⟩]
  | c :: rest, cur =>
    if c = '\n' then (⟨cur.reverse⟩ : String) :: splitNlGo rest []
    else splitNlGo rest (c :: cur)

/-- `str.splitlines()` for newline-separated text: split on `'\n'` but
without a trailing empty piece. -/
def pySplitlines (s : String) : List String :=
  if s = "" then []
  else
    let l := splitNlGo s.data []
    if l.getLast? = some "" then l.dropLast else l

/-- The greedy word-wrap loop of `_measure_height_smart`: accumulate words
into `cur` while the measured trial line fits `tightness`-scaled into
`maxW`. -/
def wrapWords (cw : Char → ℚ) (fontsize tightness maxW : ℚ)
    (cur : String) : List String → List String
  | [] => [cur]
  | w :: ws =>
    let trial := cur ++ " " ++ w
    if getLen cw fontsize trial * tightness ≤ maxW then
      wrapWords cw fontsize tightness maxW trial ws
    else cur :: wrapWords cw fontsize tightness maxW w ws

/-- Lines produced by `_measure_height_smart` for one paragraph. -/
def wrapPara (cw : Char → ℚ) (fontsize tightness maxW : ℚ) (para : String) :
    List String :=
  if para = "" then [""]
  else
    match (splitWs para).map (fun l => (⟨l⟩ : String)) with
    | [] => [""]
    | w :: ws => wrapWords cw fontsize tightness maxW w ws

/-- `_measure_height_smart text width fontsize`: wrapped lines and the
height `max (2*fontsize) (#lines * line_height_factor * fontsize)`.  The
host metric function is modelled by `cw` (see the header); the probe-font
fallback never triggers because the metric font is available. -/
def measureHeightSmart (cw : Char → ℚ) (text : String) (width fontsize : ℚ)
    (lineHeightFactor tightness : ℚ) : List String × ℚ :=
  let maxW := max 1 width
  let paras := match pySplitlines text with | [] => [""] | l => l
  let lines := paras.flatMap (wrapPara cw fontsize tightness maxW)
  (lines, max (2 * fontsize) (lines.length * (lineHeightFactor * fontsize)))

/- ---------------------------------------------------------------------
Search, layout and collision helpers.
--------------------------------------------------------------------- -/

/-- The dedup key of `_dedup_rects`: the four coordinates rounded to two
decimals (represented by the integer of hundredths). -/
def round2Key (r : Rect) : ℤ × ℤ × ℤ × ℤ :=
  (roundHalfEven (100 * r.x0), roundHalfEven (100 * r.y0),
   roundHalfEven (100 * r.x1), roundHalfEven (100 * r.y1))

/-- `_dedup_rects`: keep the first rectangle for each rounded key. -/
def dedupRectsGo : List Rect → List (ℤ × ℤ × ℤ × ℤ) → List Rect
  | [], _ => []
  | r :: rs, seen =>
    let k := round2Key r
    if k ∈ seen then dedupRectsGo rs seen else r :: dedupRectsGo rs (k :: seen)

/-- `_dedup_rects` with an empty seen set. -/
def dedupRects (l : List Rect) : List Rect := dedupRectsGo l []

/-- `_text_rects_padded` (pad 2): padded rectangles of the blocks with
non-blank text. -/
def textRectsPadded (pg : Page) : List Rect :=
  pg.blocks.filterMap fun b =>
    if hasContent b.text then some (Rect.add4 ⟨b.x0, b.y0, b.x1, b.y1⟩ (-2) (-2) 2 2)
    else none

/-- `_blocks_index`: every block with its index. -/
def blocksIndex (pg : Page) : List (ℤ × Rect) :=
  pg.blocks.enum.map fun ib => ((ib.1 : ℤ), ⟨ib.2.x0, ib.2.y0, ib.2.x1, ib.2.y1⟩)

/-- `_block_for_rect_idx`: the block containing the hit's center or
intersecting the hit, with maximal intersection area (later blocks win
ties); if none, a padded copy of the hit with index `-1`. -/
def blockForRectIdx (hit : Rect) (blocksIdx : List (ℤ × Rect)) : ℤ × Rect :=
  let cx := (hit.x0 + hit.x1) / 2
  let cy := (hit.y0 + hit.y1) / 2
  let best := blocksIdx.foldl
    (fun (acc : Option (ℤ × Rect) × ℚ) ib =>
      if ib.2.containsPt cx cy || ib.2.intersects hit then
        let area := ib.2.interArea hit
        if area ≥ acc.2 then (some ib, area) else acc
      else acc)
    (none, -1)
  match best.1 with
  | some ib => ib
  | none => (-1, Rect.add4 hit (-3) (-3) 3 3)

/-- Merge overlapping sorted intervals (`_free_gaps_at_y` middle part);
the accumulator is reversed. -/
def mergeIntervals (l : List (ℚ × ℚ)) : List (ℚ × ℚ) :=
  (l.foldl
    (fun acc iv =>
      match acc with
      | [] => [iv]
      | top :: rest => if iv.1 > top.2 then iv :: acc else (top.1, max top.2 iv.2) :: rest)
    []).reverse

/-- Walk the merged intervals emitting the gaps between them
(`_free_gaps_at_y` final part). -/
def gapsWalk (L R : ℚ) : ℚ → List (ℚ × ℚ) → List (ℚ × ℚ)
  | cur, [] => if cur < R then [(cur, R)] else []
  | cur, iv :: rest =>
    (if iv.1 > cur then [(max L cur, min R iv.1)] else []) ++
      gapsWalk L R (max cur iv.2) rest

/-- `_free_gaps_at_y` (pad 3, window 12): horizontal free intervals at a
vertical position, from the page's words. -/
def freeGapsAtY (pg : Page) (yCenter : ℚ) : List (ℚ × ℚ) :=
  let yTop := yCenter - 12
  let yBot := yCenter + 12
  let intervals := pg.words.filterMap fun w =>
    if w.y1 < yTop || w.y0 > yBot then none else some (w.x0 - 3, w.x1 + 3)
  let sorted := pySortBy
    (fun a b => decide (a.1 < b.1) || (decide (a.1 = b.1) && decide (a.2 < b.2)))
    intervals
  gapsWalk (pg.rect.x0 + 3) (pg.rect.x1 - 3) (pg.rect.x0 + 3) (mergeIntervals sorted)

/-- The gap-to-block distance of `_choose_gap_for_y` (`1e9` when the gap
straddles the block). -/
def gapDist (blkRect : Rect) (g : ℚ × ℚ) : ℚ :=
  if g.2 ≤ blkRect.x0 then blkRect.x0 - g.2
  else if g.1 ≥ blkRect.x1 then g.1 - blkRect.x1
  else 1000000000

/-- `_choose_gap_for_y`: order the gaps by (distance to block, then wider
first), restrict to the preferred side when one is requested and available,
and return the first gap at least `min_w + 6` wide together with the final
width `min target (max min_w (avail - 6))`. -/
def chooseGapForY (pg : Page) (blkRect : Rect) (cy preferWidth minW : ℚ)
    (preferSide : String) : Option ((ℚ × ℚ) × ℚ) :=
  let gaps := freeGapsAtY pg cy
  if gaps = [] then none
  else
    let key := fun (g : ℚ × ℚ) => (gapDist blkRect g, -(g.2 - g.1))
    let ordered := pySortBy
      (fun a b => decide ((key a).1 < (key b).1) ||
        (decide ((key a).1 = (key b).1) && decide ((key a).2 < (key b).2)))
      gaps
    let ordered :=
      if preferSide = "left" || preferSide = "right" then
        let sideG := ordered.filter fun g =>
          (preferSide = "left" && decide (g.2 ≤ blkRect.x0)) ||
            (preferSide = "right" && decide (g.1 ≥ blkRect.x1))
        if sideG ≠ [] then sideG else ordered
      else ordered
    ordered.findSome? fun g =>
      let avail := g.2 - g.1
      if avail ≥ minW + 6 then some (g, min preferWidth (max minW (avail - 6)))
      else none

/-- `_choose_gap_for_y_center_first`: prefer a qualifying gap whose
midpoint is within `centerTol` of the page's horizontal center (widest
final width wins, first maximal on ties), else fall back to
`chooseGapForY`. -/
def chooseGapForYCenterFirst (pg : Page) (blkRect : Rect)
    (cy preferWidth minW : ℚ) (preferSide : String) (pageBox : Rect)
    (centerTol : ℚ) : Option ((ℚ × ℚ) × ℚ) :=
  let centerX := (pageBox.x0 + pageBox.x1) / 2
  let gaps := freeGapsAtY pg cy
  if gaps = [] then none
  else
    let centerCands := gaps.filterMap fun g =>
      let midx := (g.1 + g.2) / 2
      let avail := g.2 - g.1
      if |midx - centerX| ≤ centerTol ∧ avail ≥ minW + 6 then
        some (g, min preferWidth (max minW (avail - 6)))
      else none
    match centerCands with
    | [] => chooseGapForY pg blkRect cy preferWidth minW preferSide
    | c :: cs => some (cs.foldl (fun best t => if t.2 > best.2 then t else best) c)

/-- The per-y chooser of `_find_gap_nearby`: center-first when the center
gutter is enabled, else the plain side-aware chooser. -/
def gapChooser (pg : Page) (blkRect : Rect) (preferWidth minW : ℚ)
    (preferSide : String) (pageBox : Rect) (allowCenterGutter : Bool)
    (centerTol : ℚ) (cy : ℚ) : Option ((ℚ × ℚ) × ℚ) :=
  if allowCenterGutter then
    chooseGapForYCenterFirst pg blkRect cy preferWidth minW preferSide pageBox
      centerTol
  else chooseGapForY pg blkRect cy preferWidth minW preferSide

/-- `_find_gap_nearby`: try the anchor's vertical center first (with no
page-margin check), then scan outward in steps of `scanStep` up to
`maxScan`, trying `cy0 + δ` then `cy0 - δ` and skipping positions within
6 units of the page's top or bottom. -/
def findGapNearby (pg : Page) (blkRect : Rect) (cy0 preferWidth minW : ℚ)
    (preferSide : String) (pageBox : Rect) (scanStep maxScan : ℕ)
    (allowCenterGutter : Bool) (centerTol : ℚ) :
    Option (ℚ × ((ℚ × ℚ) × ℚ)) :=
  match gapChooser pg blkRect preferWidth minW preferSide pageBox
    allowCenterGutter centerTol cy0 with
  | some cand => some (cy0, cand)
  | none =>
    ((List.range ((maxScan + scanStep - 1) / scanStep)).map
        fun i => ((scanStep * (i + 1) : ℕ) : ℚ)).findSome? fun d =>
      [cy0 + d, cy0 - d].findSome? fun cy =>
        if cy ≤ pageBox.y0 + 6 ∨ cy ≥ pageBox.y1 - 6 then none
        else (gapChooser pg blkRect preferWidth minW preferSide pageBox
          allowCenterGutter centerTol cy).map fun cand => (cy, cand)

/-- The candidate rectangle of `_place_in_band` for a given vertical
midpoint: clamp into the band and left-align at `band.x0 + pad`. -/
def bandCand (band : Rect) (w h pad ymid : ℚ) : Rect :=
  let y0 := max (band.y0 + pad) (ymid - h / 2)
  let y1 := min (band.y1 - pad) (y0 + h)
  ⟨band.x0 + pad, y1 - h, band.x0 + pad + w, y1⟩

/-- `_place_in_band` (step 6, pad 3): search outward from `yCenter` in the
band for the first candidate that hits neither an already-placed note nor a
padded text block; bounded at 2000 steps. -/
def placeInBand (band : Rect) (yCenter w h : ℚ)
    (placed textRects : List Rect) : Option Rect :=
  if w > max 1 (band.w - 2 * 3) ∨ h > max 1 (band.h - 2 * 3) then none
  else
    (List.range 2001).findSome? fun k =>
      [(1 : ℚ), -1].findSome? fun sign =>
        let ymid := yCenter + sign * k * 6
        if ymid < band.y0 + 3 ∨ ymid > band.y1 - 3 then none
        else
          let cand := bandCand band w h 3 ymid
          if placed.any (fun r => cand.intersects r) then none
          else if intersectsAny cand textRects then none
          else some cand

/-- `_fallback_band` (inside the orchestrator): full-width band above the
topmost or below the bottommost word, the taller one first. -/
def fallbackBand (fallbackZone : String) (noteFontsize notePadding : ℚ)
    (pg : Page) : Option Rect :=
  match pg.words with
  | [] => none
  | w0 :: ws =>
    let yTop := ws.foldl (fun a x => min a x.y0) w0.y0
    let yBot := ws.foldl (fun a x => max a x.y1) w0.y1
    let bands : List Rect :=
      (if fallbackZone = "top" || fallbackZone = "both" then
        [⟨pg.rect.x0 + 8, pg.rect.y0 + 8, pg.rect.x1 - 8, yTop - 8⟩] else []) ++
      (if fallbackZone = "bottom" || fallbackZone = "both" then
        [⟨pg.rect.x0 + 8, yBot + 8, pg.rect.x1 - 8, pg.rect.y1 - 8⟩] else [])
    let bands := bands.filter fun b =>
      decide (b.h ≥ 1.3 * noteFontsize + 2 * notePadding + 2)
    if bands = [] then none
    else (pySortBy (fun a b => decide (b.h < a.h)) bands).head?

/- ---------------------------------------------------------------------
The orchestrator `highlight_and_margin_comment_pdf`.
--------------------------------------------------------------------- -/

/-- `NotePlacement`: one planned note (the `_rect_tuple` 4-tuples are
represented by `Rect`). -/
structure NP where
  uid : String
  page_index : ℕ
  query : String
  explanation : String
  anchor_rect : Rect
  note_rect : Rect
  leader_from : Option (ℚ × ℚ)
  leader_to : Option (ℚ × ℚ)
deriving DecidableEq, Repr

/-- One drawing side effect performed on the document. -/
inductive Effect where
  /-- `_add_highlight` of the deduplicated quads of one query on one page. -/
  | highlight (page : ℕ) (quads : List Rect)
  /-- `_draw_note_box`. -/
  | noteBox (page : ℕ) (r : Rect)
  /-- `_insert_textbox` of the wrapped note lines into the inner rectangle. -/
  | noteText (page : ℕ) (inner : Rect) (lines : List String)
  /-- `_draw_line` for the leader. -/
  | leaderLine (page : ℕ) (p0 p1 : ℚ × ℚ)
  /-- `doc.save(out_path)`. -/
  | save (path : String)
deriving DecidableEq, Repr

/-- Is the effect a highlight annotation? -/
def Effect.isHighlight : Effect → Bool
  | .highlight _ _ => true
  | _ => false

/-- The configuration of `highlight_and_margin_comment_pdf` (the keyword
arguments that reach the placement logic).  Colors are reduced to the
presence information the geometry reads: `noteFillSome`/`noteBorderSome`
(`_parse_optional_color` results being `None` or not) and `leaderSome`
(`lead_rgb is not None`).  `cw` carries the resolved host font metrics. -/
structure Config where
  noteWidth : ℚ := 160
  minNoteWidth : ℚ := 56
  notePadding : ℚ := 4
  noteFontsize : ℚ := 10
  noteBorderWidth : ℚ := 1
  noteFillSome : Bool := true
  noteBorderSome : Bool := true
  drawLeader : Bool := true
  leaderSome : Bool := true
  side : String := "nearest"
  scanStep : ℕ := 8
  maxScan : ℕ := 240
  maxVerticalOffset : ℚ := 72
  withinBlockPad : ℚ := 12
  allowColumnFooter : Bool := true
  columnFooterMaxOffset : ℚ := 144
  columnFooterTopGap : ℚ := 6
  columnFooterSidePad : ℚ := 3
  enableFallback : Bool := false
  fallbackZone : String := "bottom"
  mergeDuplicateHitsTol : ℚ := 12
  dedupeNoteYTol : ℚ := 16
  allowCenterGutter : Bool := false
  centerGutterTol : ℚ := 24
  wrapTightness : ℚ := 0.96
  lineHeightFactor : ℚ := 1.18
  dedupeScope : String := "block"
  planOnly : Bool := false
  fixedNoteRects : List (String × Rect) := []
  cw : Char → ℚ := fun _ => 1/2
  outPath : String := "out.pdf"

/-- `comment_map.get(q, f"Note: {q}")` over the association list of
supplied comments (`dict(comments)` with `setdefault`). -/
def commentOf (comments : List (String × String)) (q : String) : String :=
  match comments.lookup q with
  | some c => c
  | none => "Note: " ++ q

/-- The non-effect part of the orchestrator's running state: page-local
collision/dedup bookkeeping (reset at each page) and the document-global
counters, placements and document-scope dedup set. -/
structure Core where
  placed : List Rect := []
  anchors : String → List (ℚ × ℚ) := fun _ => []
  noteYs : String → List ℚ := fun _ => []
  commented : List (ℤ × String) := []
  pageCommented : List String := []
  docCommented : List String := []
  totalHits : ℕ := 0
  totalNotes : ℕ := 0
  totalSkipped : ℕ := 0
  placements : List NP := []

/-- The full running state: `Core` plus the drawing effects performed. -/
structure HSt where
  core : Core
  effects : List Effect := []

/-- The static per-page context handed to each hit. -/
structure PageCtx where
  pg : Page
  pageBox : Rect
  blocksIdx : List (ℤ × Rect)
  textRects : List Rect

/-- `side` resolution (line 985): `"nearest"` prefers the side of the page
whose margin the hit is nearest to (`right` iff the room on the right is at
most the room on the left), every other value is passed through. -/
def preferSideFor (side : String) (pageBox r : Rect) : String :=
  if side ≠ "nearest" then side
  else if pageBox.x1 - r.x1 ≤ r.x0 - pageBox.x0 then "right" else "left"

/-- Increment `total_skipped`. -/
def bumpSkip (st : HSt) : HSt :=
  { st with core := { st.core with totalSkipped := st.core.totalSkipped + 1 } }

/-- The note rectangle ultimately used by `_finalize_pos`: the caller's
override for the computed uid if present, else the computed rectangle. -/
def finalPosOf (cfg : Config) (uid : String) (posRect : Rect) : Rect :=
  match cfg.fixedNoteRects.lookup uid with
  | some r => r
  | none => posRect

/-- The leader endpoints recorded by `_finalize_pos`. -/
def leaderEnds (cfg : Config) (blkRect pos : Rect) :
    Option (ℚ × ℚ) × Option (ℚ × ℚ) :=
  let midy := (pos.y0 + pos.y1) / 2
  if cfg.drawLeader && cfg.leaderSome then
    if pos.x1 ≤ blkRect.x0 then
      (some (pos.x1, midy), some (blkRect.x0, midy))
    else if pos.x0 ≥ blkRect.x1 then
      (some (pos.x0, midy), some (blkRect.x1, midy))
    else (none, none)
  else (none, none)

/-- The `NotePlacement` recorded by `_finalize_pos`. -/
def mkPlacement (cfg : Config) (ctx : PageCtx) (q ctext normCt : String)
    (blkRect : Rect) (cx0 cy0 : ℚ) (posRect : Rect) : NP :=
  let uid := mkUid ctx.pg.number normCt cx0 cy0
  let pos := finalPosOf cfg uid posRect
  { uid := uid
    page_index := ctx.pg.number
    query := q
    explanation := ctext
    anchor_rect := blkRect
    note_rect := pos
    leader_from := (leaderEnds cfg blkRect pos).1
    leader_to := (leaderEnds cfg blkRect pos).2 }

/-- The bookkeeping part of `_finalize_pos` (shared by both modes):
append the placement, remember the final rectangle in `placed`, bump
`total_notes`, and update all dedup records. -/
def finalizeCore (cfg : Config) (ctx : PageCtx) (q ctext normCt : String)
    (key : ℤ × String) (blkRect : Rect) (cx0 cy0 : ℚ) (posRect : Rect)
    (c : Core) : Core :=
  let pos := finalPosOf cfg (mkUid ctx.pg.number normCt cx0 cy0) posRect
  let midy := (pos.y0 + pos.y1) / 2
  { c with
    placed := c.placed ++ [pos]
    totalNotes := c.totalNotes + 1
    commented := c.commented ++ [key]
    noteYs := fun s => if s = normCt then c.noteYs normCt ++ [midy]
      else c.noteYs s
    anchors := fun s => if s = normCt then c.anchors normCt ++ [(cx0, cy0)]
      else c.anchors s
    pageCommented :=
      if cfg.dedupeScope = "page" || cfg.dedupeScope = "document" then
        c.pageCommented ++ [normCt]
      else c.pageCommented
    docCommented :=
      if cfg.dedupeScope = "document" then c.docCommented ++ [normCt]
      else c.docCommented
    placements := c.placements ++
      [mkPlacement cfg ctx q ctext normCt blkRect cx0 cy0 posRect] }

/-- The drawing effects of `_finalize_pos` in render mode: note box,
wrapped text in the padded inner rectangle, and the leader line. -/
def finalizeFx (cfg : Config) (ctx : PageCtx) (ctext normCt : String)
    (blkRect : Rect) (cx0 cy0 : ℚ) (posRect : Rect)
    (wrapped : Option (List String)) : List Effect :=
  let pos := finalPosOf cfg (mkUid ctx.pg.number normCt cx0 cy0) posRect
  let midy := (pos.y0 + pos.y1) / 2
  let boxFx : List Effect :=
    if cfg.noteBorderWidth ≤ 0 then []
    else if !cfg.noteBorderSome && !cfg.noteFillSome then []
    else [.noteBox ctx.pg.number pos]
  let inner := Rect.add4 pos cfg.notePadding cfg.notePadding
    (-cfg.notePadding) (-cfg.notePadding)
  let lines := match wrapped with
    | some l => l
    | none => (measureHeightSmart cfg.cw ctext inner.w cfg.noteFontsize
        cfg.lineHeightFactor cfg.wrapTightness).1
  let leadFx : List Effect :=
    if cfg.drawLeader && cfg.leaderSome then
      if pos.x1 ≤ blkRect.x0 then
        [.leaderLine ctx.pg.number (pos.x1, midy) (blkRect.x0, midy)]
      else if pos.x0 ≥ blkRect.x1 then
        [.leaderLine ctx.pg.number (pos.x0, midy) (blkRect.x1, midy)]
      else []
    else []
  boxFx ++ [.noteText ctx.pg.number inner lines] ++ leadFx

/-- `_finalize_pos`: compute the uid from the hit's center, substitute the
caller's override rectangle if one exists for that uid, record the
placement and all dedup/collision bookkeeping, and — only when not in
plan-only mode (`if plan_only: return`) — perform the drawing effects. -/
def finalizePos (cfg : Config) (ctx : PageCtx) (q ctext normCt : String)
    (key : ℤ × String) (blkRect : Rect) (cx0 cy0 : ℚ) (posRect : Rect)
    (wrapped : Option (List String)) (st : HSt) : HSt :=
  { core := finalizeCore cfg ctx q ctext normCt key blkRect cx0 cy0 posRect
      st.core
    effects := st.effects ++
      if cfg.planOnly then []
      else finalizeFx cfg ctx ctext normCt blkRect cx0 cy0 posRect wrapped }

/-- The note-y dedup test (`any(abs(midy - y) <= dedupe_note_y_tol ...)`). -/
def dedupYHit (cfg : Config) (st : HSt) (normCt : String) (pos : Rect) : Bool :=
  (st.core.noteYs normCt).any fun y =>
    decide (|(pos.y0 + pos.y1) / 2 - y| ≤ cfg.dedupeNoteYTol)

/-- The side/gutter placement attempt (the `cand is not None` path):
wrap at the gap's final width, and pack into the vertical band over the
gap's x-range. -/
def gapPath (cfg : Config) (ctx : PageCtx) (ctext : String) (cyU : ℚ)
    (cand : (ℚ × ℚ) × ℚ) (placed : List Rect) : Option (Rect × List String) :=
  let finalW := cand.2
  let mh := measureHeightSmart cfg.cw ctext (finalW - 2 * cfg.notePadding)
    cfg.noteFontsize cfg.lineHeightFactor cfg.wrapTightness
  let noteH := mh.2 + 2 * cfg.notePadding
  let band : Rect := ⟨cand.1.1, ctx.pageBox.y0, cand.1.2, ctx.pageBox.y1⟩
  (placeInBand band cyU finalW noteH placed ctx.textRects).map fun pos =>
    (pos, mh.1)

/-- The column-footer placement attempt: a band just below the anchor
block, accepted only when its midpoint stays within
`column_footer_max_offset` of the hit center. -/
def footerPath (cfg : Config) (ctx : PageCtx) (ctext : String)
    (blkRect : Rect) (cy0 : ℚ) (placed : List Rect) :
    Option (Rect × List String) :=
  if cfg.allowColumnFooter then
    let bandX0 := blkRect.x0 + cfg.columnFooterSidePad
    let bandX1 := blkRect.x1 - cfg.columnFooterSidePad
    let availW := max 0 (bandX1 - bandX0)
    if availW ≥ cfg.minNoteWidth + 6 then
      let finalW := min cfg.noteWidth (max cfg.minNoteWidth (availW - 6))
      let mh := measureHeightSmart cfg.cw ctext (finalW - 2 * cfg.notePadding)
        cfg.noteFontsize cfg.lineHeightFactor cfg.wrapTightness
      let noteH := mh.2 + 2 * cfg.notePadding
      let band : Rect := ⟨bandX0, blkRect.y1 + cfg.columnFooterTopGap,
        bandX1, ctx.pageBox.y1 - 6⟩
      match placeInBand band (blkRect.y1 + noteH / 2 + cfg.columnFooterTopGap)
        finalW noteH placed ctx.textRects with
      | none => none
      | some fp =>
        if decide (|(fp.y0 + fp.y1) / 2 - cy0| > cfg.columnFooterMaxOffset)
        then none else some (fp, mh.1)
    else none
  else none

/-- The global top/bottom fallback placement attempt. -/
def fallbackPath (cfg : Config) (ctx : PageCtx) (ctext : String)
    (placed : List Rect) : Option (Rect × List String) :=
  if cfg.enableFallback then
    match fallbackBand cfg.fallbackZone cfg.noteFontsize cfg.notePadding
      ctx.pg with
    | some band =>
      let finalW := min cfg.noteWidth (max cfg.minNoteWidth (band.w - 6))
      let mh := measureHeightSmart cfg.cw ctext (finalW - 2 * cfg.notePadding)
        cfg.noteFontsize cfg.lineHeightFactor cfg.wrapTightness
      let noteH := mh.2 + 2 * cfg.notePadding
      (placeInBand band (band.y0 + band.h / 2) finalW noteH placed
          ctx.textRects).map fun pos => (pos, mh.1)
    | none => none
  else none

/-- The placement decision for one hit (lines 985–1169 minus the dedup
bookkeeping): find a gap near the anchor, discard it when it is too far
from the hit or outside the anchor block's vertical span, and try, with
first success winning, the gap band, the column footer, and the global
fallback band.  Returns the packed rectangle and the wrapped lines, or
`none` when the hit is to be skipped. -/
def hitChoice (cfg : Config) (ctx : PageCtx) (ctext : String)
    (blkRect : Rect) (cy0 : ℚ) (prefer : String) (placed : List Rect) :
    Option (Rect × List String) :=
  let gap0 := findGapNearby ctx.pg blkRect cy0 cfg.noteWidth cfg.minNoteWidth
    prefer ctx.pageBox cfg.scanStep cfg.maxScan cfg.allowCenterGutter
    cfg.centerGutterTol
  let gap := match gap0 with
    | some (cyU, cand) =>
      if decide (|cyU - cy0| > cfg.maxVerticalOffset) ||
          !(decide (blkRect.y0 - cfg.withinBlockPad ≤ cyU) &&
            decide (cyU ≤ blkRect.y1 + cfg.withinBlockPad)) then none
      else some (cyU, cand)
    | none => none
  match gap with
  | some (cyU, cand) => gapPath cfg ctx ctext cyU cand placed
  | none =>
    match footerPath cfg ctx ctext blkRect cy0 placed with
    | some fw => some fw
    | none => fallbackPath cfg ctx ctext placed

/-- Processing of one `(query, hit)` pair of a page (the body of the
`for q, hit in page_hits` loop, lines 963–1169): the dedup guards, then
the placement decision, then the note-y dedup, then finalization. -/
def processHit (cfg : Config) (comments : List (String × String))
    (ctx : PageCtx) (st : HSt) (qh : String × Rect) : HSt :=
  let hit := qh.2
  let cx0 := (hit.x0 + hit.x1) / 2
  let cy0 := (hit.y0 + hit.y1) / 2
  let ib := blockForRectIdx hit ctx.blocksIdx
  let blkRect := ib.2
  let ctext := commentOf comments qh.1
  let normCt := normText ctext
  let key := (ib.1, normCt)
  if key ∈ st.core.commented then st
  else if (st.core.anchors normCt).any (fun pc =>
      decide (|cy0 - pc.2| ≤ cfg.mergeDuplicateHitsTol) &&
        decide (|cx0 - pc.1| ≤ cfg.mergeDuplicateHitsTol)) then st
  else if (cfg.dedupeScope = "page" || cfg.dedupeScope = "document") &&
      decide (normCt ∈ st.core.pageCommented) then st
  else if cfg.dedupeScope = "document" &&
      decide (normCt ∈ st.core.docCommented) then st
  else
    match hitChoice cfg ctx ctext blkRect cy0
      (preferSideFor cfg.side ctx.pageBox hit) st.core.placed with
    | none => bumpSkip st
    | some pw =>
      if dedupYHit cfg st normCt pw.1 then bumpSkip st
      else finalizePos cfg ctx qh.1 ctext normCt key blkRect cx0 cy0 pw.1
        (some pw.2) st

/-- `page_hits`: per query, the deduplicated hit rectangles, tagged with
the query, in query order. -/
def pageHitsOf (pg : Page) (qlist : List String) : List (String × Rect) :=
  qlist.flatMap fun q => (dedupRects (pg.search q)).map fun h => (q, h)

/-- `hits_by_query`: group the page hits by query in first-appearance
order (`defaultdict` insertion order). -/
def groupByQuery (hits : List (String × Rect)) : List (String × List Rect) :=
  hits.foldl
    (fun acc qh =>
      if acc.any (fun e => e.1 == qh.1) then
        acc.map fun e => if e.1 == qh.1 then (e.1, e.2 ++ [qh.2]) else e
      else acc ++ [(qh.1, [qh.2])])
    []

/-- One step of the highlight loop (lines 941–959): deduplicate the quads
of one query, add the highlight annotation, count the hits. -/
def highlightStep (pg : Page) (s : HSt) (e : String × List Rect) : HSt :=
  if e.2 = [] then s
  else
    let quads := dedupRects e.2
    { s with
      core := { s.core with totalHits := s.core.totalHits + quads.length }
      effects := s.effects ++ [.highlight pg.number quads] }

/-- The static context of one page. -/
def pageCtxOf (pg : Page) : PageCtx :=
  { pg := pg, pageBox := pg.rect, blocksIdx := blocksIndex pg,
    textRects := textRectsPadded pg }

/-- Processing of one page: reset the page-local bookkeeping, collect the
page hits, highlight them (this also happens in plan-only mode), then run
the per-hit placement loop. -/
def processPage (cfg : Config) (qlist : List String)
    (comments : List (String × String)) (st : HSt) (pg : Page) : HSt :=
  let st := { st with core :=
    { st.core with
      placed := []
      anchors := fun _ => []
      noteYs := fun _ => []
      commented := []
      pageCommented := [] } }
  let pageHits := pageHitsOf pg qlist
  if pageHits = [] then st
  else
    let st := (groupByQuery pageHits).foldl (highlightStep pg) st
    pageHits.foldl (processHit cfg comments (pageCtxOf pg)) st

/-- The outcome of a run: output path (`None` in plan-only mode), the three
counters, the collected placements (the source materialises them in both
modes) and the drawing effects performed on the document. -/
structure RunResult where
  outPath : Option String
  totalHits : ℕ
  totalNotes : ℕ
  totalSkipped : ℕ
  placements : List NP
  effects : List Effect
deriving DecidableEq, Repr

/-- The successful path of `highlight_and_margin_comment_pdf`: process
every page in order; in render mode additionally save the document. -/
def runOk (doc : List Page) (qlist : List String)
    (comments : List (String × String)) (cfg : Config) : RunResult :=
  let st := doc.foldl (processPage cfg qlist comments) { core := {} }
  { outPath := if cfg.planOnly then none else some cfg.outPath
    totalHits := st.core.totalHits
    totalNotes := st.core.totalNotes
    totalSkipped := st.core.totalSkipped
    placements := st.core.placements
    effects := st.effects ++ if cfg.planOnly then [] else [.save cfg.outPath] }

/-- `highlight_and_margin_comment_pdf` (explicit query-list input): reject
an empty query list before touching any page, else run. -/
def run (doc : List Page) (queries : List String)
    (comments : List (String × String)) (cfg : Config) :
    Except String RunResult :=
  let qlist := queries.filter hasContent
  if qlist = [] then .error "No valid queries."
  else .ok (runOk doc qlist comments cfg)

/- ---------------------------------------------------------------------
Concrete documents used as witnesses and counterexamples.  All geometry is
designed so that every intermediate value is an exact two-decimal rational.
--------------------------------------------------------------------- -/

/-- A page with one two-word text block and one hit, with ample room in the
right margin. -/
def pageA : Page :=
  { number := 0
    rect := ⟨0, 0, 400, 200⟩
    blocks := [⟨50, 90, 200, 110, "hello world"⟩]
    words := [⟨50, 90, 100, 110⟩, ⟨110, 90, 200, 110⟩]
    search := fun q => if q = "hello" then [⟨50, 90, 100, 110⟩] else [] }

/-- Plan-only configuration for `pageA`. -/
def cfgA : Config := { noteWidth := 100, side := "right", planOnly := true }

/-- Comments for `pageA`. -/
def commentsA : List (String × String) := [("hello", "A note")]

/-- A page with two text blocks and one hit in each, both notes fitting in
the right margin. -/
def pageB : Page :=
  { number := 0
    rect := ⟨0, 0, 400, 300⟩
    blocks := [⟨50, 90, 200, 110, "hello world"⟩, ⟨50, 180, 200, 200, "foo bar"⟩]
    words := [⟨50, 90, 100, 110⟩, ⟨110, 90, 200, 110⟩, ⟨50, 180, 100, 200⟩,
      ⟨110, 180, 200, 200⟩]
    search := fun q =>
      if q = "hello" then [⟨50, 90, 100, 110⟩]
      else if q = "foo" then [⟨50, 180, 100, 200⟩] else [] }

/-- Plan-only page-scope configuration for `pageB`. -/
def cfgB : Config :=
  { noteWidth := 100, side := "right", planOnly := true, dedupeScope := "page" }

/-- Comments for `pageB` (distinct note texts). -/
def commentsB : List (String × String) := [("hello", "A note"), ("foo", "B note")]

/-- A page with two occurrences of the same quote, 5 units apart
vertically, in the same block, with ample room in the right margin. -/
def pageC : Page :=
  { number := 0
    rect := ⟨0, 0, 400, 200⟩
    blocks := [⟨50, 85, 200, 110, "dup line one and two"⟩]
    words := [⟨50, 90, 200, 100⟩, ⟨50, 95, 200, 105⟩]
    search := fun q =>
      if q = "dup" then [⟨50, 90, 100, 100⟩, ⟨50, 95, 100, 105⟩] else [] }

/-- Page-scope configuration with dedup tolerance 16 for `pageC`. -/
def cfgC : Config :=
  { noteWidth := 100, side := "right", planOnly := true, dedupeScope := "page",
    dedupeNoteYTol := 16 }

/-- Comments for `pageC`. -/
def commentsC : List (String × String) := [("dup", "dup note")]

/-- A page fully covered by one word, so that no gap, footer or fallback
placement exists; it contains two occurrences of the same quote 5 units
apart vertically. -/
def pageD : Page :=
  { number := 0
    rect := ⟨0, 0, 200, 100⟩
    blocks := [⟨5, 5, 195, 95, "blah"⟩]
    words := [⟨5, 5, 195, 95⟩]
    search := fun q => if q = "q" then [⟨10, 40, 50, 50⟩, ⟨10, 45, 50, 55⟩] else [] }

/-- Page-scope configuration for `pageD` with footer and fallback off. -/
def cfgD : Config :=
  { noteWidth := 100, side := "right", planOnly := true, dedupeScope := "page",
    allowColumnFooter := false, maxScan := 16 }

/-- Comments for `pageD`. -/
def commentsD : List (String × String) := [("q", "dup note")]

/-- A page with two hits in different blocks whose notes share the same
normalised text (`"same"`). -/
def pageE : Page :=
  { number := 0
    rect := ⟨0, 0, 400, 300⟩
    blocks := [⟨50, 90, 200, 110, "w1"⟩, ⟨50, 180, 200, 200, "w2"⟩]
    words := [⟨50, 90, 200, 110⟩, ⟨50, 180, 200, 200⟩]
    search := fun q =>
      if q = "q1" then [⟨50, 90, 100, 110⟩]
      else if q = "q2" then [⟨50, 180, 100, 200⟩] else [] }

/-- Plan-only block-scope configuration for `pageE`, without overrides. -/
def cfgE : Config := { noteWidth := 100, side := "right", planOnly := true }

/-- Comments for `pageE`: equal after normalisation. -/
def commentsE : List (String × String) := [("q1", "Same"), ("q2", "sAmE")]

/-- An override map for `pageE` pinning the first note (uid
`86c907266371 = sha1("0|same|75.0|100.0")[:12]`) to a thin rectangle right
above where the second note would go. -/
def overrideE : List (String × Rect) := [("86c907266371", ⟨206, 178, 306, 182⟩)]

/-- A page whose only word row sits 1–5 units above the bottom edge, so a
gap exists at a vertical center inside the bottom inset. -/
def pageF : Page :=
  { number := 0
    rect := ⟨0, 0, 200, 100⟩
    blocks := []
    words := [⟨90, 95, 110, 99⟩]
    search := fun _ => [] }

/-- The anchor-block rectangle used with `pageF`. -/
def blkF : Rect := ⟨88, 93, 112, 100⟩

/- ---------------------------------------------------------------------
Proof devices.
--------------------------------------------------------------------- -/

/-- The uid the specification describes for claim C1, written from the
spec's words: hash of page index, normalised note text and the center of
the placement's *anchor rectangle*. -/
def specAnchorUid (p : NP) : String :=
  mkUid p.page_index (normText p.explanation)
    ((p.anchor_rect.x0 + p.anchor_rect.x1) / 2)
    ((p.anchor_rect.y0 + p.anchor_rect.y1) / 2)

/-- Is the placement's rectangle overridden by the caller's map? -/
def overridden (cfg : Config) (p : NP) : Bool :=
  (cfg.fixedNoteRects.lookup p.uid).isSome

/-- Numeric skeleton of the greedy wrap loop: the number of lines produced
from a current-line measure `a` and the remaining word measures, where
`fit t` decides whether a trial line of measure `t` still fits and `sp` is
the measure of the separating space. -/
def wrapCount (sp : ℚ) (fit : ℚ → Bool) : ℚ → List ℚ → ℕ
  | _, [] => 1
  | a, w :: ws =>
    if fit (a + sp + w) then wrapCount sp fit (a + sp + w) ws
    else 1 + wrapCount sp fit w ws

/-- Summed unit glyph widths of a string under the metric `cw`. -/
def uMeasure (cw : Char → ℚ) (s : String) : ℚ := (s.data.map cw).sum

/-- The per-page facts established for the placements a page contributes:
each stems from one of the page's hits, each non-overridden one avoids the
page's padded text blocks, later ones avoid earlier ones unless
overridden, and under page/document scope their normalised texts are
pairwise distinct. -/
def PageProps (cfg : Config) (qlist : List String)
    (comments : List (String × String)) (pg : Page) (newl : List NP) :
    Prop :=
  (∀ p ∈ newl, ∃ qh, qh ∈ pageHitsOf pg qlist ∧ ∃ posRect : Rect,
    p = mkPlacement cfg (pageCtxOf pg) qh.1 (commentOf comments qh.1)
      (normText (commentOf comments qh.1))
      (blockForRectIdx qh.2 (pageCtxOf pg).blocksIdx).2
      ((qh.2.x0 + qh.2.x1) / 2) ((qh.2.y0 + qh.2.y1) / 2) posRect) ∧
  (∀ p ∈ newl, cfg.fixedNoteRects.lookup p.uid = none →
    ∀ t ∈ textRectsPadded pg, p.note_rect.intersects t = false) ∧
  newl.Pairwise (fun a b => cfg.fixedNoteRects.lookup b.uid = none →
    b.note_rect.intersects a.note_rect = false) ∧
  ((cfg.dedupeScope = "page" ∨ cfg.dedupeScope = "document") →
    newl.Pairwise fun a b => normText a.explanation ≠ normText b.explanation)

/- ---------------------------------------------------------------------
Theorems.  Batteries makes the `Rat` field operations irreducible; they are
unsealed so that `decide` can evaluate the engine on concrete documents
(the kernel itself ignores reducibility settings).
--------------------------------------------------------------------- -/

unseal Rat.add Rat.mul Rat.sub Rat.inv Rat.ofScientific

set_option maxRecDepth 8000

/-- The uid of the placement recorded by `_finalize_pos` is the hash of
the page number, the normalised text and the hit center handed to it —
independent of the override map and the chosen rectangle. -/
theorem mkPlacement_uid (cfg : Config) (ctx : PageCtx)
    (q ctext normCt : String) (blkRect : Rect) (cx0 cy0 : ℚ)
    (posRect : Rect) :
    (mkPlacement cfg ctx q ctext normCt blkRect cx0 cy0 posRect).uid =
      mkUid ctx.pg.number normCt cx0 cy0 := rfl

/-- `_finalize_pos` appends one placement whose uid is the hash of the hit
center data. -/
theorem finalizeCore_uid_map (cfg : Config) (ctx : PageCtx)
    (q ctext normCt : String) (key : ℤ × String) (blkRect : Rect)
    (cx0 cy0 : ℚ) (posRect : Rect) (c : Core) :
    ((finalizeCore cfg ctx q ctext normCt key blkRect cx0 cy0 posRect
        c).placements).map NP.uid =
      c.placements.map NP.uid ++ [mkUid ctx.pg.number normCt cx0 cy0] := by
  simp [finalizeCore, mkPlacement_uid]

/-- `_finalize_pos` increments `total_notes` by one. -/
theorem finalizeCore_totalNotes (cfg : Config) (ctx : PageCtx)
    (q ctext normCt : String) (key : ℤ × String) (blkRect : Rect)
    (cx0 cy0 : ℚ) (posRect : Rect) (c : Core) :
    (finalizeCore cfg ctx q ctext normCt key blkRect cx0 cy0 posRect
        c).totalNotes = c.totalNotes + 1 := rfl

/-- The placement decision never reads the override map. -/
theorem hitChoice_ignores_override (cfg : Config) (m : List (String × Rect))
    (ctx : PageCtx) (ctext : String) (blkRect : Rect) (cy0 : ℚ)
    (prefer : String) (placed : List Rect) :
    hitChoice { cfg with fixedNoteRects := m } ctx ctext blkRect cy0 prefer
      placed = hitChoice cfg ctx ctext blkRect cy0 prefer placed := by
  cases cfg; rfl

/-- The note-y dedup test never reads the override map. -/
theorem dedupYHit_ignores_override (cfg : Config) (m : List (String × Rect))
    (st : HSt) (normCt : String) (pos : Rect) :
    dedupYHit { cfg with fixedNoteRects := m } st normCt pos =
      dedupYHit cfg st normCt pos := by
  cases cfg; rfl

/-- Claim C6 (amended): for one hit processed from one and the same state,
the override map changes neither whether a note is emitted nor which uid it
gets — the uid and the emission decision are computed before the override
rectangle is substituted.  (Whole-run uid sets can still differ, because an
override feeds the recorded geometry into the dedup and collision
bookkeeping consulted by later hits; see the counterexample.) -/
theorem uid_ignores_override_per_hit (cfg : Config)
    (m : List (String × Rect)) (comments : List (String × String))
    (ctx : PageCtx) (st : HSt) (qh : String × Rect) :
    ((processHit { cfg with fixedNoteRects := m } comments ctx st
        qh).core.placements.map NP.uid =
      (processHit cfg comments ctx st qh).core.placements.map NP.uid) ∧
    ((processHit { cfg with fixedNoteRects := m } comments ctx st
        qh).core.totalNotes =
      (processHit cfg comments ctx st qh).core.totalNotes) := by
  constructor <;>
  · simp only [processHit, hitChoice_ignores_override, dedupYHit_ignores_override]
    repeat' split
    all_goals first
      | rfl
      | simp [finalizePos, finalizeCore_uid_map, finalizeCore_totalNotes]

/-- Counterexample to claim C6 as stated: on `pageE`, without overrides the
two hits are assigned two uids, while pinning the first note to a thin
rectangle (`overrideE`) makes the second hit fall to the note-y dedup and
no uid is assigned to it. -/
theorem override_changes_uid_set_cex :
    (runOk [pageE] ["q1", "q2"] commentsE cfgE).placements.map NP.uid =
        ["86c907266371", "f908c5affd5f"] ∧
      (runOk [pageE] ["q1", "q2"] commentsE
          { cfgE with fixedNoteRects := overrideE }).placements.map NP.uid =
        ["86c907266371"] := by
  constructor <;> decide

/-- Claim C2: a plan-only run is a pure function of document, annotation
list and configuration, so two invocations agree on the uid list and the
note rectangles (the uid hash is content-derived, not Python's randomised
`hash()`). -/
theorem plan_runs_deterministic (doc : List Page) (qlist : List String)
    (comments : List (String × String)) (cfg : Config) :
    (runOk doc qlist comments { cfg with planOnly := true }).placements.map
        NP.uid =
      (runOk doc qlist comments { cfg with planOnly := true }).placements.map
        NP.uid ∧
    (runOk doc qlist comments { cfg with planOnly := true }).placements.map
        NP.note_rect =
      (runOk doc qlist comments { cfg with planOnly := true }).placements.map
        NP.note_rect :=
  ⟨rfl, rfl⟩

/-- Claim C9 (amended): with `side="nearest"`, the preferred side is the
one the hit is nearest to: `"right"` exactly when the room on the right
(`page.x1 - hit.x1`) is at most the room on the left (`hit.x0 - page.x0`),
and `"left"` otherwise. -/
theorem nearest_side_rule (pageBox r : Rect) :
    (preferSideFor "nearest" pageBox r = "right" ↔
      pageBox.x1 - r.x1 ≤ r.x0 - pageBox.x0) ∧
    (preferSideFor "nearest" pageBox r = "left" ↔
      ¬(pageBox.x1 - r.x1 ≤ r.x0 - pageBox.x0)) := by
  unfold preferSideFor
  split
  · exact absurd rfl (by assumption)
  · split <;> simp_all

/-- Counterexample to claim C9 as stated: for a hit near the left edge the
right margin has strictly more room, yet `"nearest"` resolves to
`"left"`. -/
theorem nearest_side_claim_cex :
    preferSideFor "nearest" ⟨0, 0, 200, 100⟩ ⟨10, 40, 30, 50⟩ = "left" ∧
      (Rect.mk 0 0 200 100).x1 - (Rect.mk 10 40 30 50).x1 >
        (Rect.mk 10 40 30 50).x0 - (Rect.mk 0 0 200 100).x0 := by
  constructor <;> decide

/-- A property preserved by every step of a fold is preserved by the
fold. -/
theorem foldl_preserve {σ α : Type _} (P : σ → Prop) (f : σ → α → σ)
    (h : ∀ s a, P s → P (f s a)) :
    ∀ (l : List α) (s : σ), P s → P (l.foldl f s)
  | [], _, hs => hs
  | a :: l, s, hs => foldl_preserve P f h l (f s a) (h s a hs)

/-- In plan-only mode, processing a hit draws nothing. -/
theorem processHit_effects_planOnly (cfg : Config)
    (comments : List (String × String)) (ctx : PageCtx) (st : HSt)
    (qh : String × Rect) (h : cfg.planOnly = true) :
    (processHit cfg comments ctx st qh).effects = st.effects := by
  simp only [processHit]
  repeat' split
  all_goals simp [finalizePos, bumpSkip, h]

/-- In plan-only mode, processing a page adds only highlight effects. -/
theorem processPage_effects_planOnly (cfg : Config) (qlist : List String)
    (comments : List (String × String)) (st : HSt) (pg : Page)
    (h : cfg.planOnly = true) :
    ∀ e ∈ (processPage cfg qlist comments st pg).effects,
      e ∈ st.effects ∨ e.isHighlight = true := by
  have hits : ∀ (l : List (String × Rect)) (ctxv : PageCtx) (s : HSt),
      (l.foldl (processHit cfg comments ctxv) s).effects = s.effects := by
    intro l ctxv
    induction l with
    | nil => intro s; rfl
    | cons a t ih =>
      intro s
      rw [List.foldl_cons, ih, processHit_effects_planOnly _ _ _ _ _ h]
  intro e he
  simp only [processPage] at he
  split at he
  · exact Or.inl he
  · rw [hits] at he
    have hfold : ∀ (l : List (String × List Rect)) (s : HSt),
        ∀ e ∈ (l.foldl (highlightStep pg) s).effects,
          e ∈ s.effects ∨ e.isHighlight = true := by
      intro l
      induction l with
      | nil => intro s e he; exact Or.inl he
      | cons a t ih =>
        intro s e he
        rcases ih (highlightStep pg s a) e he with hm | hh
        · unfold highlightStep at hm
          split at hm
          · exact Or.inl hm
          · simp only [List.mem_append, List.mem_singleton] at hm
            rcases hm with hm | hm
            · exact Or.inl hm
            · subst hm
              exact Or.inr rfl
        · exact Or.inr hh
    rcases hfold _ _ e he with hm | hh
    · exact Or.inl hm
    · exact Or.inr hh

/-- Claim C5 (amended): in plan-only mode the engine never saves the
document and draws no note box, no note text and no leader line — but it
does still add the highlight annotations to the in-memory pages (see the
counterexample), so the only effects of a plan-only run are highlights. -/
theorem plan_only_no_draw_effects (doc : List Page) (qlist : List String)
    (comments : List (String × String)) (cfg : Config)
    (h : cfg.planOnly = true) :
    (∀ e ∈ (runOk doc qlist comments cfg).effects, e.isHighlight = true) ∧
      (runOk doc qlist comments cfg).outPath = none := by
  constructor
  · intro e he
    simp only [runOk, h, if_true] at he
    rw [List.append_nil] at he
    have main := foldl_preserve
      (fun s : HSt => ∀ e ∈ s.effects, e.isHighlight = true)
      (processPage cfg qlist comments) ?_ doc { core := {} } ?_
    · exact main e he
    · intro s a hs e' he'
      rcases processPage_effects_planOnly cfg qlist comments s a h e' he' with
        hm | hh
      · exact hs e' hm
      · exact hh
    · intro e' he'
      simp at he'
  · simp [runOk, h]

/-- Witness for C5 on `pageA`: the plan-only run has only highlight
effects and no output path. -/
theorem plan_only_no_draw_effects_witness :
    (runOk [pageA] ["hello"] commentsA cfgA).effects.all Effect.isHighlight =
        true ∧
      (runOk [pageA] ["hello"] commentsA cfgA).outPath = none :=
  have h := plan_only_no_draw_effects [pageA] ["hello"] commentsA cfgA rfl
  ⟨List.all_eq_true.mpr h.1, h.2⟩

/-- Counterexample to claim C5 as stated: the plan-only run on `pageA`
*does* mutate the in-memory document — it adds the highlight annotation for
the hit (lines 937–959 run in both modes). -/
theorem plan_only_adds_highlight_cex :
    cfgA.planOnly = true ∧
      (runOk [pageA] ["hello"] commentsA cfgA).effects =
        [Effect.highlight 0 [⟨50, 90, 100, 110⟩]] := by
  constructor
  · rfl
  · decide

/-- Every result of `_choose_gap_for_y` carries the final width
`min target (max min_w (avail - 6))` of its gap. -/
theorem chooseGapForY_width (pg : Page) (blkRect : Rect)
    (cy preferWidth minW : ℚ) (preferSide : String) (g : ℚ × ℚ) (fw : ℚ)
    (h : chooseGapForY pg blkRect cy preferWidth minW preferSide =
      some (g, fw)) :
    fw = min preferWidth (max minW (g.2 - g.1 - 6)) := by
  simp only [chooseGapForY] at h
  split at h
  · exact absurd h (by simp)
  · repeat' split at h
    all_goals {
      obtain ⟨a, _, hfa⟩ := List.exists_of_findSome?_eq_some h
      split at hfa
      · rw [Option.some_inj] at hfa
        injection hfa with h1 h2
        subst h1
        subst h2
        rfl
      · exact absurd hfa (by simp) }

/-- Every result of `_choose_gap_for_y_center_first` carries the final
width `min target (max min_w (avail - 6))` of its gap. -/
theorem chooseGapForYCenterFirst_width (pg : Page) (blkRect : Rect)
    (cy preferWidth minW : ℚ) (preferSide : String) (pageBox : Rect)
    (centerTol : ℚ) (g : ℚ × ℚ) (fw : ℚ)
    (h : chooseGapForYCenterFirst pg blkRect cy preferWidth minW preferSide
      pageBox centerTol = some (g, fw)) :
    fw = min preferWidth (max minW (g.2 - g.1 - 6)) := by
  simp only [chooseGapForYCenterFirst] at h
  split at h
  · exact absurd h (by simp)
  · split at h
    · exact chooseGapForY_width pg blkRect cy preferWidth minW preferSide g fw h
    · next c cs heq =>
      rw [Option.some_inj] at h
      have hmem : ∀ (l : List ((ℚ × ℚ) × ℚ)) (c0 : (ℚ × ℚ) × ℚ),
          (l.foldl (fun best t => if t.2 > best.2 then t else best) c0) ∈
            c0 :: l := by
        intro l
        induction l with
        | nil => intro c0; simp
        | cons d ds ih =>
          intro c0
          rw [List.foldl_cons]
          rcases List.mem_cons.mp (ih (if d.2 > c0.2 then d else c0)) with hh | hh
          · rw [hh]
            split
            · simp
            · simp
          · simp [hh]
      have hmem2 := hmem cs c
      rw [h, ← heq] at hmem2
      obtain ⟨a, _, hfa⟩ := List.mem_filterMap.mp hmem2
      split at hfa
      · rw [Option.some_inj] at hfa
        injection hfa with h1 h2
        subst h1
        rw [← h2]
      · exact absurd hfa (by simp)

/-- Claim C8 (amended): whenever `_find_gap_nearby` returns, the final
width is `min(requested, max(min_width, gap_width - 6))` for the chosen
gap; the returned y lies strictly inside the 6-unit page insets whenever it
was found by the outward scan — the initial anchor-center y is returned
without that check (see the counterexample). -/
theorem gap_result_width_and_scan_inset (pg : Page) (blkRect : Rect)
    (cy0 preferWidth minW : ℚ) (preferSide : String) (pageBox : Rect)
    (scanStep maxScan : ℕ) (acg : Bool) (centerTol : ℚ) (cy : ℚ)
    (g : ℚ × ℚ) (fw : ℚ)
    (h : findGapNearby pg blkRect cy0 preferWidth minW preferSide pageBox
      scanStep maxScan acg centerTol = some (cy, (g, fw))) :
    fw = min preferWidth (max minW (g.2 - g.1 - 6)) ∧
      (cy = cy0 ∨ (pageBox.y0 + 6 < cy ∧ cy < pageBox.y1 - 6)) := by
  have chooserW : ∀ cyv gv fwv,
      gapChooser pg blkRect preferWidth minW preferSide pageBox acg centerTol
        cyv = some (gv, fwv) →
      fwv = min preferWidth (max minW (gv.2 - gv.1 - 6)) := by
    intro cyv gv fwv hc
    unfold gapChooser at hc
    split at hc
    · exact chooseGapForYCenterFirst_width pg blkRect cyv preferWidth minW
        preferSide pageBox centerTol gv fwv hc
    · exact chooseGapForY_width pg blkRect cyv preferWidth minW preferSide
        gv fwv hc
  unfold findGapNearby at h
  cases hgc : gapChooser pg blkRect preferWidth minW preferSide pageBox acg
      centerTol cy0 with
  | some cand =>
    rw [hgc] at h
    injection h with h1
    injection h1 with hcyeq hcand
    subst hcyeq
    rcases cand with ⟨gv, fwv⟩
    injection hcand with hg hf
    subst hg
    subst hf
    exact ⟨chooserW _ _ _ hgc, Or.inl rfl⟩
  | none =>
    rw [hgc] at h
    obtain ⟨d, _, hd⟩ := List.exists_of_findSome?_eq_some h
    obtain ⟨cyv, _, hcy⟩ := List.exists_of_findSome?_eq_some hd
    split at hcy
    · exact absurd hcy (by simp)
    · next hmargin =>
      obtain ⟨cand, hc, hres⟩ := Option.map_eq_some'.mp hcy
      injection hres with h1 h2
      subst h1
      rcases cand with ⟨gv, fwv⟩
      injection h2 with hg hf
      subst hg
      subst hf
      refine ⟨chooserW _ _ _ hc, Or.inr ?_⟩
      push_neg at hmargin
      exact ⟨hmargin.1, hmargin.2⟩

/-- Witness for C8: the concrete gap search on `pageF` returns a result,
whose width satisfies the formula and whose y is the unchecked initial
one. -/
theorem gap_result_width_and_scan_inset_witness :
    findGapNearby pageF blkF 97 100 56 "left" pageF.rect 8 240 false 24 =
        some (97, ((3, 87), 78)) ∧
      ((78 : ℚ) = min 100 (max 56 (87 - 3 - 6)) ∧
        ((97 : ℚ) = 97 ∨
          (pageF.rect.y0 + 6 < 97 ∧ (97 : ℚ) < pageF.rect.y1 - 6))) :=
  ⟨by decide,
    gap_result_width_and_scan_inset pageF blkF 97 100 56 "left" pageF.rect
      8 240 false 24 97 (3, 87) 78 (by decide)⟩

/-- Counterexample to claim C8 as stated: on `pageF` the gap search
returns the initial y `97`, which is *not* inside the 6-unit inset from
the page bottom (`y1 - 6 = 94`). -/
theorem gap_initial_y_outside_inset_cex :
    findGapNearby pageF blkF 97 100 56 "left" pageF.rect 8 240 false 24 =
        some (97, ((3, 87), 78)) ∧
      ¬((97 : ℚ) < pageF.rect.y1 - 6) := by
  constructor <;> decide

/-- Counterexample to claim C1 as stated: the single placement of the
`pageA` run has a uid that differs from the hash of the anchor-rectangle
center described by the spec (the code hashes the hit-rectangle center,
`(75, 100)`, not the anchor center `(125, 100)`). -/
theorem uid_not_anchor_center_cex :
    (runOk [pageA] ["hello"] commentsA cfgA).placements.map
      (fun p => p.uid == specAnchorUid p) = [false] := by
  decide

/-- Counterexample to claim C7 as stated: on `pageD` (a page with no free
space, footer and fallback disabled) two identical-text occurrences 5
units apart vertically, with scope `"page"` and dedup tolerance 16,
produce zero notes, not exactly one. -/
theorem dedup_zero_notes_cex :
    cfgD.dedupeScope = "page" ∧ cfgD.dedupeNoteYTol = 16 ∧
      ((pageHitsOf pageD ["q"]).map fun qh =>
          (normText (commentOf commentsD qh.1), (qh.2.y0 + qh.2.y1) / 2)) =
        [("dup note", 45), ("dup note", 50)] ∧
      (runOk [pageD] ["q"] commentsD cfgD).totalNotes = 0 ∧
      (runOk [pageD] ["q"] commentsD cfgD).totalSkipped = 2 := by
  refine ⟨rfl, rfl, by decide, by decide, by decide⟩

/-- Rectangle intersection is symmetric. -/
theorem intersects_comm (a b : Rect) : a.intersects b = b.intersects a := by
  unfold Rect.intersects
  rw [max_comm a.x0 b.x0, min_comm a.x1 b.x1, max_comm a.y0 b.y0,
    min_comm a.y1 b.y1]

/-- Without an override entry, the final rectangle is the computed one. -/
theorem finalPosOf_none (cfg : Config) (uid : String) (posRect : Rect)
    (h : cfg.fixedNoteRects.lookup uid = none) :
    finalPosOf cfg uid posRect = posRect := by
  simp [finalPosOf, h]

/-- Soundness of the band packer: a returned rectangle intersects neither
an already-placed note nor a padded text block. -/
theorem placeInBand_sound (band : Rect) (yCenter w h : ℚ)
    (placed textRects : List Rect) (pos : Rect)
    (hp : placeInBand band yCenter w h placed textRects = some pos) :
    (∀ r ∈ placed, pos.intersects r = false) ∧
      (∀ t ∈ textRects, pos.intersects t = false) := by
  simp only [placeInBand] at hp
  split at hp
  · exact absurd hp (by simp)
  · obtain ⟨k, _, hk⟩ := List.exists_of_findSome?_eq_some hp
    obtain ⟨sgn, _, hs⟩ := List.exists_of_findSome?_eq_some hk
    split at hs
    · exact absurd hs (by simp)
    · split at hs
      · exact absurd hs (by simp)
      · next hany =>
        split at hs
        · exact absurd hs (by simp)
        · next hintr =>
          rw [Option.some_inj] at hs
          subst hs
          constructor
          · intro r hr
            simp only [List.any_eq_true, not_exists, not_and] at hany
            have := hany r hr
            simp only [Bool.not_eq_true] at this
            exact this
          · intro t ht
            unfold intersectsAny at hintr
            simp only [List.any_eq_true, not_exists, not_and] at hintr
            have := hintr t ht
            simp only [Bool.not_eq_true] at this
            exact this

/-- Soundness of the side/gutter placement path. -/
theorem gapPath_sound (cfg : Config) (ctx : PageCtx) (ctext : String)
    (cyU : ℚ) (cand : (ℚ × ℚ) × ℚ) (placed : List Rect)
    (pw : Rect × List String)
    (h : gapPath cfg ctx ctext cyU cand placed = some pw) :
    (∀ r ∈ placed, pw.1.intersects r = false) ∧
      (∀ t ∈ ctx.textRects, pw.1.intersects t = false) := by
  simp only [gapPath] at h
  obtain ⟨pos, hpos, hres⟩ := Option.map_eq_some'.mp h
  have := placeInBand_sound _ _ _ _ _ _ _ hpos
  rw [← hres]
  exact this

/-- Soundness of the column-footer placement path. -/
theorem footerPath_sound (cfg : Config) (ctx : PageCtx) (ctext : String)
    (blkRect : Rect) (cy0 : ℚ) (placed : List Rect) (pw : Rect × List String)
    (h : footerPath cfg ctx ctext blkRect cy0 placed = some pw) :
    (∀ r ∈ placed, pw.1.intersects r = false) ∧
      (∀ t ∈ ctx.textRects, pw.1.intersects t = false) := by
  simp only [footerPath] at h
  split at h
  · split at h
    · split at h
      · exact absurd h (by simp)
      · next fp hfp =>
        split at h
        · exact absurd h (by simp)
        · rw [Option.some_inj] at h
          have := placeInBand_sound _ _ _ _ _ _ _ hfp
          rw [← h]
          exact this
    · exact absurd h (by simp)
  · exact absurd h (by simp)

/-- Soundness of the global fallback placement path. -/
theorem fallbackPath_sound (cfg : Config) (ctx : PageCtx) (ctext : String)
    (placed : List Rect) (pw : Rect × List String)
    (h : fallbackPath cfg ctx ctext placed = some pw) :
    (∀ r ∈ placed, pw.1.intersects r = false) ∧
      (∀ t ∈ ctx.textRects, pw.1.intersects t = false) := by
  simp only [fallbackPath] at h
  split at h
  · split at h
    · obtain ⟨pos, hpos, hres⟩ := Option.map_eq_some'.mp h
      have := placeInBand_sound _ _ _ _ _ _ _ hpos
      rw [← hres]
      exact this
    · exact absurd h (by simp)
  · exact absurd h (by simp)

/-- Soundness of the whole placement decision: every chosen rectangle
avoids the already-placed notes and the padded text blocks. -/
theorem hitChoice_sound (cfg : Config) (ctx : PageCtx) (ctext : String)
    (blkRect : Rect) (cy0 : ℚ) (prefer : String) (placed : List Rect)
    (pw : Rect × List String)
    (h : hitChoice cfg ctx ctext blkRect cy0 prefer placed = some pw) :
    (∀ r ∈ placed, pw.1.intersects r = false) ∧
      (∀ t ∈ ctx.textRects, pw.1.intersects t = false) := by
  simp only [hitChoice] at h
  split at h
  · exact gapPath_sound _ _ _ _ _ _ _ h
  · split at h
    · next fw hfw =>
      rw [Option.some_inj] at h
      subst h
      exact footerPath_sound _ _ _ _ _ _ _ hfw
    · exact fallbackPath_sound _ _ _ _ _ h

/-- The recorded placement's rectangle is the override-resolved one. -/
theorem mkPlacement_note_rect (cfg : Config) (ctx : PageCtx)
    (q ctext normCt : String) (blkRect : Rect) (cx0 cy0 : ℚ)
    (posRect : Rect) :
    (mkPlacement cfg ctx q ctext normCt blkRect cx0 cy0 posRect).note_rect =
      finalPosOf cfg (mkUid ctx.pg.number normCt cx0 cy0) posRect := rfl

/-- The recorded placement's note body is the comment text. -/
theorem mkPlacement_explanation (cfg : Config) (ctx : PageCtx)
    (q ctext normCt : String) (blkRect : Rect) (cx0 cy0 : ℚ)
    (posRect : Rect) :
    (mkPlacement cfg ctx q ctext normCt blkRect cx0 cy0 posRect).explanation =
      ctext := rfl

/-- The recorded placement's page index is the page number. -/
theorem mkPlacement_page_index (cfg : Config) (ctx : PageCtx)
    (q ctext normCt : String) (blkRect : Rect) (cx0 cy0 : ℚ)
    (posRect : Rect) :
    (mkPlacement cfg ctx q ctext normCt blkRect cx0 cy0 posRect).page_index =
      ctx.pg.number := rfl

/-- The case analysis of one hit: either the hit is skipped or merged and
the placement-relevant state is unchanged, or exactly one placement is
appended whose computed rectangle avoids the current placed set and the
padded text blocks, and — under page or document scope — whose normalised
text was not yet on the page and is recorded. -/
theorem processHit_cases (cfg : Config) (comments : List (String × String))
    (ctx : PageCtx) (st : HSt) (qh : String × Rect) :
    ((processHit cfg comments ctx st qh).core.placements =
        st.core.placements ∧
      (processHit cfg comments ctx st qh).core.placed = st.core.placed ∧
      (processHit cfg comments ctx st qh).core.pageCommented =
        st.core.pageCommented) ∨
    (∃ posRect : Rect,
      (processHit cfg comments ctx st qh).core.placements =
        st.core.placements ++
          [mkPlacement cfg ctx qh.1 (commentOf comments qh.1)
            (normText (commentOf comments qh.1))
            (blockForRectIdx qh.2 ctx.blocksIdx).2
            ((qh.2.x0 + qh.2.x1) / 2) ((qh.2.y0 + qh.2.y1) / 2) posRect] ∧
      (processHit cfg comments ctx st qh).core.placed =
        st.core.placed ++
          [finalPosOf cfg
            (mkUid ctx.pg.number (normText (commentOf comments qh.1))
              ((qh.2.x0 + qh.2.x1) / 2) ((qh.2.y0 + qh.2.y1) / 2)) posRect] ∧
      ((∀ r ∈ st.core.placed, posRect.intersects r = false) ∧
        (∀ t ∈ ctx.textRects, posRect.intersects t = false)) ∧
      ((cfg.dedupeScope = "page" ∨ cfg.dedupeScope = "document") →
        normText (commentOf comments qh.1) ∉ st.core.pageCommented ∧
        (processHit cfg comments ctx st qh).core.pageCommented =
          st.core.pageCommented ++
            [normText (commentOf comments qh.1)])) := by
  simp only [processHit]
  split
  · exact Or.inl ⟨rfl, rfl, rfl⟩
  · split
    · exact Or.inl ⟨rfl, rfl, rfl⟩
    · split
      · exact Or.inl ⟨rfl, rfl, rfl⟩
      · rename_i h3
        split
        · exact Or.inl ⟨rfl, rfl, rfl⟩
        · split
          · exact Or.inl ⟨rfl, rfl, rfl⟩
          · rename_i pw hq
            split
            · exact Or.inl ⟨rfl, rfl, rfl⟩
            · right
              refine ⟨pw.1, rfl, rfl,
                hitChoice_sound _ _ _ _ _ _ _ _ hq, ?_⟩
              intro hscope
              have hmem : normText (commentOf comments qh.1) ∉
                  st.core.pageCommented := by
                intro hmem
                apply h3
                rcases hscope with h | h <;> simp [h, hmem]
              refine ⟨hmem, ?_⟩
              simp only [finalizePos, finalizeCore]
              rcases hscope with h | h <;> simp [h]

/-- The accumulated invariants of the per-hit loop over a page: the new
placements stem from the processed hits, their computed rectangles avoid
the incoming placed set and the padded text blocks (when not overridden),
later ones avoid earlier ones, and — under page or document scope — their
normalised texts are fresh, recorded, and pairwise distinct. -/
theorem processHits_fold (cfg : Config) (comments : List (String × String))
    (ctx : PageCtx) :
    ∀ (l : List (String × Rect)) (st : HSt),
    ∃ newl : List NP,
      (l.foldl (processHit cfg comments ctx) st).core.placements =
        st.core.placements ++ newl ∧
      (l.foldl (processHit cfg comments ctx) st).core.placed =
        st.core.placed ++ newl.map NP.note_rect ∧
      (∀ p ∈ newl, ∃ qh, qh ∈ l ∧ ∃ posRect : Rect,
        p = mkPlacement cfg ctx qh.1 (commentOf comments qh.1)
          (normText (commentOf comments qh.1))
          (blockForRectIdx qh.2 ctx.blocksIdx).2
          ((qh.2.x0 + qh.2.x1) / 2) ((qh.2.y0 + qh.2.y1) / 2) posRect) ∧
      (∀ p ∈ newl, cfg.fixedNoteRects.lookup p.uid = none →
        (∀ r ∈ st.core.placed, p.note_rect.intersects r = false) ∧
        (∀ t ∈ ctx.textRects, p.note_rect.intersects t = false)) ∧
      newl.Pairwise (fun a b => cfg.fixedNoteRects.lookup b.uid = none →
        b.note_rect.intersects a.note_rect = false) ∧
      ((cfg.dedupeScope = "page" ∨ cfg.dedupeScope = "document") →
        ((l.foldl (processHit cfg comments ctx) st).core.pageCommented =
          st.core.pageCommented ++
            newl.map fun p => normText p.explanation) ∧
        (∀ p ∈ newl, normText p.explanation ∉ st.core.pageCommented) ∧
        newl.Pairwise fun a b =>
          normText a.explanation ≠ normText b.explanation) := by
  intro l
  induction l with
  | nil =>
    intro st
    exact ⟨[], by simp, by simp, by simp, by simp, by simp,
      fun _ => ⟨by simp, by simp, by simp⟩⟩
  | cons qh t ih =>
    intro st
    rw [List.foldl_cons]
    rcases processHit_cases cfg comments ctx st qh with
      ⟨e1, e2, e3⟩ | ⟨posRect, e1, e2, ⟨sPl, sTx⟩, hsc⟩
    · obtain ⟨newl, h1, h2, h3, h4, h5, h6⟩ :=
        ih (processHit cfg comments ctx st qh)
      refine ⟨newl, ?_, ?_, ?_, ?_, h5, ?_⟩
      · rw [h1, e1]
      · rw [h2, e2]
      · intro p hp
        obtain ⟨qh', hql, rest⟩ := h3 p hp
        exact ⟨qh', List.mem_cons_of_mem _ hql, rest⟩
      · intro p hp hlk
        have := h4 p hp hlk
        rw [e2] at this
        exact this
      · intro hs
        obtain ⟨p1, p2, p3⟩ := h6 hs
        refine ⟨by rw [p1, e3], ?_, p3⟩
        intro p hp
        have := p2 p hp
        rw [e3] at this
        exact this
    · obtain ⟨newl, h1, h2, h3, h4, h5, h6⟩ :=
        ih (processHit cfg comments ctx st qh)
      refine ⟨mkPlacement cfg ctx qh.1 (commentOf comments qh.1)
        (normText (commentOf comments qh.1))
        (blockForRectIdx qh.2 ctx.blocksIdx).2
        ((qh.2.x0 + qh.2.x1) / 2) ((qh.2.y0 + qh.2.y1) / 2) posRect ::
          newl, ?_, ?_, ?_, ?_, ?_, ?_⟩
      · rw [h1, e1, List.append_assoc]
        rfl
      · rw [h2, e2, List.map_cons, mkPlacement_note_rect, List.append_assoc]
        rfl
      · intro p hp
        rcases List.mem_cons.mp hp with rfl | hp
        · exact ⟨qh, List.mem_cons_self _ _, posRect, rfl⟩
        · obtain ⟨qh', hql, rest⟩ := h3 p hp
          exact ⟨qh', List.mem_cons_of_mem _ hql, rest⟩
      · intro p hp hlk
        rcases List.mem_cons.mp hp with rfl | hp
        · rw [mkPlacement_uid] at hlk
          rw [mkPlacement_note_rect, finalPosOf_none _ _ _ hlk]
          exact ⟨sPl, sTx⟩
        · have := h4 p hp hlk
          rw [e2] at this
          obtain ⟨hpl, htx⟩ := this
          exact ⟨fun r hr => hpl r (List.mem_append_left _ hr), htx⟩
      · rw [List.pairwise_cons]
        constructor
        · intro b hb hlkb
          have := (h4 b hb hlkb).1
          rw [e2] at this
          have hb0 := this _ (List.mem_append_right _ (List.mem_singleton_self _))
          rw [mkPlacement_note_rect]
          exact hb0
        · exact h5
      · intro hs
        obtain ⟨p1, p2, p3⟩ := h6 hs
        obtain ⟨hnm, e3'⟩ := hsc hs
        refine ⟨?_, ?_, ?_⟩
        · rw [p1, e3', List.map_cons, mkPlacement_explanation,
            List.append_assoc]
          rfl
        · intro p hp
          rcases List.mem_cons.mp hp with rfl | hp
          · rw [mkPlacement_explanation]
            exact hnm
          · have := p2 p hp
            rw [e3'] at this
            intro hmem
            exact this (List.mem_append_left _ hmem)
        · rw [List.pairwise_cons]
          constructor
          · intro b hb
            have := p2 b hb
            rw [e3'] at this
            rw [mkPlacement_explanation]
            intro heq
            exact this (heq ▸
              List.mem_append_right _ (List.mem_singleton_self _))
          · exact p3

/-- Each page contributes a batch of placements satisfying `PageProps`. -/
theorem processPage_newPlacements (cfg : Config) (qlist : List String)
    (comments : List (String × String)) (st : HSt) (pg : Page) :
    ∃ newl : List NP,
      (processPage cfg qlist comments st pg).core.placements =
        st.core.placements ++ newl ∧
      PageProps cfg qlist comments pg newl := by
  simp only [processPage]
  split
  · exact ⟨[], by simp, by simp, by simp, by simp, fun _ => by simp⟩
  · have hkeep : ∀ (l : List (String × List Rect)) (s : HSt),
        (l.foldl (highlightStep pg) s).core.placements =
          s.core.placements := by
      intro l
      induction l with
      | nil => intro s; rfl
      | cons a tl ih =>
        intro s
        rw [List.foldl_cons, ih]
        unfold highlightStep
        split <;> rfl
    obtain ⟨newl, f1, f2, f3, f4, f5, f6⟩ :=
      processHits_fold cfg comments (pageCtxOf pg) (pageHitsOf pg qlist) _
    refine ⟨newl, ?_, f3, fun p hp hlk => (f4 p hp hlk).2, f5,
      fun hs => (f6 hs).2.2⟩
    rw [f1, hkeep]

/-- The whole run decomposes into per-page batches, in page order, each
satisfying `PageProps`. -/
theorem runOk_parts (cfg : Config) (qlist : List String)
    (comments : List (String × String)) :
    ∀ (l : List Page) (st : HSt),
    ∃ parts : List (Page × List NP),
      parts.map Prod.fst = l ∧
      (l.foldl (processPage cfg qlist comments) st).core.placements =
        st.core.placements ++ (parts.map Prod.snd).flatten ∧
      ∀ pr ∈ parts, PageProps cfg qlist comments pr.1 pr.2 := by
  intro l
  induction l with
  | nil => exact fun st => ⟨[], rfl, by simp, by simp⟩
  | cons pg t ih =>
    intro st
    rw [List.foldl_cons]
    obtain ⟨newl, e1, eprops⟩ :=
      processPage_newPlacements cfg qlist comments st pg
    obtain ⟨parts, h1, h2, h3⟩ := ih (processPage cfg qlist comments st pg)
    refine ⟨(pg, newl) :: parts, by simp [h1], ?_, ?_⟩
    · rw [h2, e1]
      simp [List.append_assoc]
    · intro pr hpr
      rcases List.mem_cons.mp hpr with rfl | hpr
      · exact eprops
      · exact h3 pr hpr

/-- Every placement of a page batch carries that page's number. -/
theorem PageProps_page_index (cfg : Config) (qlist : List String)
    (comments : List (String × String)) (pg : Page) (newl : List NP)
    (h : PageProps cfg qlist comments pg newl) :
    ∀ p ∈ newl, p.page_index = pg.number := by
  intro p hp
  obtain ⟨qh, _, posRect, rfl⟩ := h.1 p hp
  rfl

/-- With pairwise-distinct page numbers, a page of the document is
determined by its number. -/
theorem page_number_unique (doc : List Page)
    (hnum : doc.Pairwise fun a b => a.number ≠ b.number) :
    ∀ pg1 ∈ doc, ∀ pg2 ∈ doc, pg1.number = pg2.number → pg1 = pg2 := by
  induction doc with
  | nil => intro pg1 h; exact absurd h (by simp)
  | cons a t ih =>
    rw [List.pairwise_cons] at hnum
    intro pg1 h1 pg2 h2 heq
    rcases List.mem_cons.mp h1 with h1e | h1t
    · rcases List.mem_cons.mp h2 with h2e | h2t
      · rw [h1e, h2e]
      · rw [h1e] at heq
        exact absurd heq (hnum.1 pg2 h2t)
    · rcases List.mem_cons.mp h2 with h2e | h2t
      · rw [h2e] at heq
        exact absurd heq.symm (hnum.1 pg1 h1t)
      · exact ih hnum.2 pg1 h1t pg2 h2t heq

/-- The run's placement list, seen from `runOk`. -/
theorem runOk_placements_eq (doc : List Page) (qlist : List String)
    (comments : List (String × String)) (cfg : Config) :
    (runOk doc qlist comments cfg).placements =
      (doc.foldl (processPage cfg qlist comments)
        { core := {} }).core.placements := rfl

/-- Per-placement source facts of a whole run: each placement comes from a
hit of a document page whose number it carries, its uid is the hash of
that hit's center data, and, when not overridden, it avoids that page's
padded text blocks. -/
theorem runOk_placement_source (doc : List Page) (qlist : List String)
    (comments : List (String × String)) (cfg : Config) (p : NP)
    (hp : p ∈ (runOk doc qlist comments cfg).placements) :
    ∃ pg, pg ∈ doc ∧ ∃ qh, qh ∈ pageHitsOf pg qlist ∧
      p.page_index = pg.number ∧
      p.explanation = commentOf comments qh.1 ∧
      p.uid = mkUid pg.number (normText (commentOf comments qh.1))
        ((qh.2.x0 + qh.2.x1) / 2) ((qh.2.y0 + qh.2.y1) / 2) ∧
      (cfg.fixedNoteRects.lookup p.uid = none →
        ∀ t ∈ textRectsPadded pg, p.note_rect.intersects t = false) := by
  obtain ⟨parts, hfst, heq, hprops⟩ :=
    runOk_parts cfg qlist comments doc { core := {} }
  rw [runOk_placements_eq, heq] at hp
  simp only [List.nil_append] at hp
  obtain ⟨lnp, hlnp, hpl⟩ := List.mem_flatten.mp hp
  obtain ⟨pr, hpr, rfl⟩ := List.mem_map.mp hlnp
  have props := hprops pr hpr
  have hpg : pr.1 ∈ doc := by
    rw [← hfst]
    exact List.mem_map.mpr ⟨pr, hpr, rfl⟩
  obtain ⟨qh, hqh, posRect, hpe⟩ := props.1 p hpl
  refine ⟨pr.1, hpg, qh, hqh, ?_, ?_, ?_, props.2.1 p hpl⟩
  · rw [hpe]; rfl
  · rw [hpe]; rfl
  · rw [hpe]; rfl

/-- A pairwise property of a run's placement list, built from a per-page
pairwise property and vacuity across distinct pages. -/
theorem runOk_placements_pairwise (doc : List Page) (qlist : List String)
    (comments : List (String × String)) (cfg : Config) (S : NP → NP → Prop)
    (hnum : doc.Pairwise fun a b => a.number ≠ b.number)
    (hpage : ∀ pg newl, PageProps cfg qlist comments pg newl →
      newl.Pairwise S)
    (hcross : ∀ a b, a.page_index ≠ b.page_index → S a b) :
    (runOk doc qlist comments cfg).placements.Pairwise S := by
  obtain ⟨parts, hfst, heq, hprops⟩ :=
    runOk_parts cfg qlist comments doc { core := {} }
  rw [runOk_placements_eq, heq]
  simp only [List.nil_append]
  rw [List.pairwise_flatten]
  constructor
  · intro l' hl'
    obtain ⟨pr, hpr, rfl⟩ := List.mem_map.mp hl'
    exact hpage pr.1 pr.2 (hprops pr hpr)
  · rw [List.pairwise_map]
    have hparts : parts.Pairwise fun a b => a.1.number ≠ b.1.number := by
      have h2 := hnum
      rw [← hfst, List.pairwise_map] at h2
      exact h2
    refine List.Pairwise.imp_of_mem (fun {a b} ha hb hne => ?_) hparts
    intro x hx y hy
    apply hcross
    rw [PageProps_page_index cfg qlist comments a.1 a.2 (hprops a ha) x hx,
      PageProps_page_index cfg qlist comments b.1 b.2 (hprops b hb) y hy]
    exact hne

/-- Non-overridden means the override lookup is empty. -/
theorem overridden_false_lookup (cfg : Config) (p : NP)
    (h : overridden cfg p = false) :
    cfg.fixedNoteRects.lookup p.uid = none := by
  cases hl : cfg.fixedNoteRects.lookup p.uid with
  | none => rfl
  | some v =>
    unfold overridden at h
    rw [hl] at h
    simp at h

/-- Claim C1 (amended): every placement's uid is the truncated SHA-1 of
the page index, the normalised note text, and the *hit rectangle's* center
coordinates rounded to two decimals — the center of the matched
occurrence, which in general differs from the center of the placement's
anchor (block) rectangle (see the counterexample). -/
theorem uid_matches_some_hit_center (doc : List Page) (qlist : List String)
    (comments : List (String × String)) (cfg : Config) (p : NP)
    (hp : p ∈ (runOk doc qlist comments cfg).placements) :
    ∃ pg, pg ∈ doc ∧ ∃ qh, qh ∈ pageHitsOf pg qlist ∧
      p.page_index = pg.number ∧
      p.explanation = commentOf comments qh.1 ∧
      p.uid = mkUid pg.number (normText (commentOf comments qh.1))
        ((qh.2.x0 + qh.2.x1) / 2) ((qh.2.y0 + qh.2.y1) / 2) := by
  obtain ⟨pg, hpg, qh, hqh, h1, h2, h3, _⟩ :=
    runOk_placement_source doc qlist comments cfg p hp
  exact ⟨pg, hpg, qh, hqh, h1, h2, h3⟩

/-- Witness for C1: the single placement of the `pageA` run, with its
source hit. -/
theorem uid_matches_some_hit_center_witness :
    (⟨"86c87e365fd1", 0, "hello", "A note", ⟨50, 90, 200, 110⟩,
        ⟨206, 86, 306, 114⟩, some (206, 100), some (200, 100)⟩ : NP) ∈
      (runOk [pageA] ["hello"] commentsA cfgA).placements ∧
    (∃ pg, pg ∈ [pageA] ∧ ∃ qh, qh ∈ pageHitsOf pg ["hello"] ∧
      (⟨"86c87e365fd1", 0, "hello", "A note", ⟨50, 90, 200, 110⟩,
        ⟨206, 86, 306, 114⟩, some (206, 100), some (200, 100)⟩ : NP).page_index
          = pg.number ∧
      (⟨"86c87e365fd1", 0, "hello", "A note", ⟨50, 90, 200, 110⟩,
        ⟨206, 86, 306, 114⟩, some (206, 100), some (200, 100)⟩ :
          NP).explanation = commentOf commentsA qh.1 ∧
      (⟨"86c87e365fd1", 0, "hello", "A note", ⟨50, 90, 200, 110⟩,
        ⟨206, 86, 306, 114⟩, some (206, 100), some (200, 100)⟩ : NP).uid =
        mkUid pg.number (normText (commentOf commentsA qh.1))
          ((qh.2.x0 + qh.2.x1) / 2) ((qh.2.y0 + qh.2.y1) / 2)) :=
  ⟨by decide,
    uid_matches_some_hit_center [pageA] ["hello"] commentsA cfgA _ (by decide)⟩

/-- Claim C3: on every page, two finalized note rectangles that were not
overridden by the caller do not intersect, and a non-overridden finalized
note rectangle intersects no padded text-block rectangle of its page. -/
theorem notes_no_overlap (doc : List Page) (qlist : List String)
    (comments : List (String × String)) (cfg : Config)
    (hnum : doc.Pairwise fun a b => a.number ≠ b.number) :
    (∀ i j (hi : i < (runOk doc qlist comments cfg).placements.length)
        (hj : j < (runOk doc qlist comments cfg).placements.length),
      i ≠ j →
      ((runOk doc qlist comments cfg).placements.get ⟨i, hi⟩).page_index =
        ((runOk doc qlist comments cfg).placements.get ⟨j, hj⟩).page_index →
      overridden cfg ((runOk doc qlist comments cfg).placements.get
        ⟨i, hi⟩) = false →
      overridden cfg ((runOk doc qlist comments cfg).placements.get
        ⟨j, hj⟩) = false →
      (((runOk doc qlist comments cfg).placements.get
          ⟨i, hi⟩).note_rect).intersects
        (((runOk doc qlist comments cfg).placements.get
          ⟨j, hj⟩).note_rect) = false) ∧
    (∀ p ∈ (runOk doc qlist comments cfg).placements,
      overridden cfg p = false →
      ∀ pg ∈ doc, pg.number = p.page_index →
      ∀ t ∈ textRectsPadded pg, p.note_rect.intersects t = false) := by
  have hpw := runOk_placements_pairwise doc qlist comments cfg
    (fun a b => a.page_index = b.page_index → overridden cfg a = false →
      overridden cfg b = false →
      a.note_rect.intersects b.note_rect = false)
    hnum ?_ ?_
  · constructor
    · intro i j hi hj hne heqp hoa hob
      rcases Nat.lt_or_ge i j with hij | hge
      · exact List.pairwise_iff_get.mp hpw ⟨i, hi⟩ ⟨j, hj⟩ hij heqp hoa hob
      · have hij : j < i := Nat.lt_of_le_of_ne hge (Ne.symm hne)
        have := List.pairwise_iff_get.mp hpw ⟨j, hj⟩ ⟨i, hi⟩ hij heqp.symm
          hob hoa
        rw [intersects_comm] at this
        exact this
    · intro p hp hov pg hpg hnumeq t ht
      obtain ⟨pg0, hpg0, qh, hqh, hpi, _, _, htx⟩ :=
        runOk_placement_source doc qlist comments cfg p hp
      have : pg = pg0 :=
        page_number_unique doc hnum pg hpg pg0 hpg0 (by rw [hnumeq, hpi])
      subst this
      exact htx (overridden_false_lookup cfg p hov) t ht
  · intro pg newl hprops
    refine hprops.2.2.1.imp fun {a b} h => ?_
    intro _ hoa hob
    rw [intersects_comm]
    exact h (overridden_false_lookup cfg b hob)
  · intro a b hne heqp
    exact absurd heqp hne

/-- Witness for C3 on `pageB`: the two placed notes do not intersect, and
the first avoids every padded text block of the page. -/
theorem notes_no_overlap_witness :
    (((runOk [pageB] ["hello", "foo"] commentsB cfgB).placements.get
        ⟨0, by decide⟩).note_rect).intersects
      (((runOk [pageB] ["hello", "foo"] commentsB cfgB).placements.get
        ⟨1, by decide⟩).note_rect) = false ∧
    (∀ t ∈ textRectsPadded pageB,
      (((runOk [pageB] ["hello", "foo"] commentsB cfgB).placements.get
        ⟨0, by decide⟩).note_rect).intersects t = false) :=
  ⟨(notes_no_overlap [pageB] ["hello", "foo"] commentsB cfgB
      (by decide)).1 0 1 (by decide) (by decide) (by decide) (by decide)
      (by decide) (by decide),
    (notes_no_overlap [pageB] ["hello", "foo"] commentsB cfgB
      (by decide)).2 _ (by decide) (by decide) pageB
      (List.mem_singleton.mpr rfl) (by decide)⟩

/-- Claim C7 (amended): with dedupe scope `"page"`, at most one note per
normalised note text is emitted on a page (two placements on the same page
always differ in normalised text); and in the concrete scenario — two
identical-text occurrences 5 units apart vertically, dedup tolerance 16,
scope `"page"`, with margin room available — exactly one note is produced.
(`"Exactly one"` does not hold for every run: when no placement succeeds,
zero notes are produced; see the counterexample.) -/
theorem dedup_at_most_one_per_page (doc : List Page) (qlist : List String)
    (comments : List (String × String)) (cfg : Config)
    (hscope : cfg.dedupeScope = "page")
    (hnum : doc.Pairwise fun a b => a.number ≠ b.number) :
    (∀ i j (hi : i < (runOk doc qlist comments cfg).placements.length)
        (hj : j < (runOk doc qlist comments cfg).placements.length),
      i ≠ j →
      ((runOk doc qlist comments cfg).placements.get ⟨i, hi⟩).page_index =
        ((runOk doc qlist comments cfg).placements.get ⟨j, hj⟩).page_index →
      normText ((runOk doc qlist comments cfg).placements.get
        ⟨i, hi⟩).explanation ≠
        normText ((runOk doc qlist comments cfg).placements.get
          ⟨j, hj⟩).explanation) ∧
    ((runOk [pageC] ["dup"] commentsC cfgC).totalNotes = 1 ∧
      (runOk [pageC] ["dup"] commentsC cfgC).placements.length = 1 ∧
      (pageHitsOf pageC ["dup"]).length = 2) := by
  have hpw := runOk_placements_pairwise doc qlist comments cfg
    (fun a b => a.page_index = b.page_index →
      normText a.explanation ≠ normText b.explanation)
    hnum ?_ ?_
  · refine ⟨?_, by decide, by decide, by decide⟩
    intro i j hi hj hne heqp
    rcases Nat.lt_or_ge i j with hij | hge
    · exact List.pairwise_iff_get.mp hpw ⟨i, hi⟩ ⟨j, hj⟩ hij heqp
    · have hij : j < i := Nat.lt_of_le_of_ne hge (Ne.symm hne)
      exact (List.pairwise_iff_get.mp hpw ⟨j, hj⟩ ⟨i, hi⟩ hij heqp.symm).symm
  · intro pg newl hprops
    refine (hprops.2.2.2 (Or.inl hscope)).imp fun {a b} h => ?_
    intro _
    exact h
  · intro a b hne heqp
    exact absurd heqp hne

/-- `getLen` is the fontsize times the summed glyph widths. -/
theorem getLen_eq (cw : Char → ℚ) (fs : ℚ) (s : String) :
    getLen cw fs s = fs * uMeasure cw s := rfl

/-- Measures are nonnegative for a nonnegative metric. -/
theorem uMeasure_nonneg (cw : Char → ℚ) (hcw : ∀ c, 0 ≤ cw c) (s : String) :
    0 ≤ uMeasure cw s := by
  refine List.sum_nonneg ?_
  intro x hx
  obtain ⟨c, _, rfl⟩ := List.mem_map.mp hx
  exact hcw c

/-- The greedy wrap loop produces exactly the line count of its numeric
skeleton `wrapCount` on the word measures. -/
theorem wrapWords_length (cw : Char → ℚ) (fs t W : ℚ) :
    ∀ (ws : List String) (cur : String),
      (wrapWords cw fs t W cur ws).length =
        wrapCount (cw ' ') (fun m => decide (fs * m * t ≤ W))
          (uMeasure cw cur) (ws.map (uMeasure cw)) := by
  intro ws
  induction ws with
  | nil => intro cur; rfl
  | cons w ws ih =>
    intro cur
    have hu : uMeasure cw (cur ++ " " ++ w) =
        uMeasure cw cur + cw ' ' + uMeasure cw w := by
      have hsp : (" " : String).data = [' '] := rfl
      unfold uMeasure
      rw [String.data_append, String.data_append, hsp]
      simp
      ring
    simp only [wrapWords, wrapCount, List.map_cons, getLen_eq, hu,
      decide_eq_true_eq]
    by_cases hc : fs * (uMeasure cw cur + cw ' ' + uMeasure cw w) * t ≤ W
    · rw [if_pos hc, if_pos hc, ih, hu]
    · rw [if_neg hc, if_neg hc, List.length_cons, ih]
      omega

/-- Cross-parameter monotonicity of the greedy line count: with an easier
fit `fit'` (and an antitone reference fit), starting from a smaller
accumulated measure never yields more lines, and from any measure at most
one line more than a restart. -/
theorem wrapCount_mono (sp : ℚ) (hsp : 0 ≤ sp) (fit fit' : ℚ → Bool)
    (himp : ∀ m, 0 ≤ m → fit m = true → fit' m = true)
    (hanti : ∀ m m', 0 ≤ m → m ≤ m' → fit m' = true → fit m = true) :
    ∀ ws : List ℚ, (∀ w ∈ ws, 0 ≤ w) →
      (∀ cur cur', 0 ≤ cur' → cur' ≤ cur →
        wrapCount sp fit' cur' ws ≤ wrapCount sp fit cur ws) ∧
      (∀ c w, 0 ≤ c → 0 ≤ w →
        wrapCount sp fit' c ws ≤ 1 + wrapCount sp fit w ws) := by
  intro ws
  induction ws with
  | nil =>
    intro _
    exact ⟨fun _ _ _ _ => le_refl 1, fun _ _ _ _ => by simp [wrapCount]⟩
  | cons v vs ih =>
    intro hnn
    have hvs := ih fun w hw => hnn w (List.mem_cons_of_mem v hw)
    have hv : 0 ≤ v := hnn v (List.mem_cons_self v vs)
    constructor
    · intro cur cur' hc' hle
      simp only [wrapCount]
      by_cases h1 : fit (cur + sp + v) = true
      · have h2 : fit' (cur' + sp + v) = true :=
          himp _ (by linarith) (hanti _ _ (by linarith) (by linarith) h1)
        rw [if_pos h1, if_pos h2]
        exact hvs.1 _ _ (by linarith) (by linarith)
      · rw [if_neg h1]
        by_cases h2 : fit' (cur' + sp + v) = true
        · rw [if_pos h2]
          exact hvs.2 _ _ (by linarith) hv
        · rw [if_neg h2]
          exact Nat.add_le_add_left (hvs.1 v v hv le_rfl) 1
    · intro c w hc hw
      simp only [wrapCount]
      by_cases h1 : fit (w + sp + v) = true
      · rw [if_pos h1]
        by_cases h2 : fit' (c + sp + v) = true
        · rw [if_pos h2]
          exact hvs.2 _ _ (by linarith) (by linarith)
        · rw [if_neg h2]
          exact Nat.add_le_add_left (hvs.1 (w + sp + v) v hv (by linarith)) 1
      · rw [if_neg h1]
        by_cases h2 : fit' (c + sp + v) = true
        · rw [if_pos h2]
          have := hvs.2 (c + sp + v) v (by linarith) hv
          omega
        · rw [if_neg h2]
          have := hvs.1 v v hv le_rfl
          omega

/-- Per-paragraph line-count monotonicity: an easier fit condition (and an
antitone reference condition) never produces more wrapped lines. -/
theorem wrapPara_length_mono (cw : Char → ℚ) (fsh fsl tt Wh Wl : ℚ)
    (hcw : ∀ c, 0 ≤ cw c)
    (himp : ∀ m, 0 ≤ m → fsh * m * tt ≤ Wh → fsl * m * tt ≤ Wl)
    (hanti : ∀ m m', 0 ≤ m → m ≤ m' → fsh * m' * tt ≤ Wh →
      fsh * m * tt ≤ Wh)
    (para : String) :
    (wrapPara cw fsl tt Wl para).length ≤
      (wrapPara cw fsh tt Wh para).length := by
  by_cases hp : para = ""
  · simp [wrapPara, hp]
  · simp only [wrapPara, if_neg hp]
    cases hsw : (splitWs para).map (fun l => (⟨l⟩ : String)) with
    | nil => exact Nat.le_refl _
    | cons w ws =>
      show (wrapWords cw fsl tt Wl w ws).length ≤
        (wrapWords cw fsh tt Wh w ws).length
      rw [wrapWords_length, wrapWords_length]
      refine (wrapCount_mono (cw ' ') (hcw ' ') _ _ ?_ ?_
        (ws.map (uMeasure cw)) ?_).1 (uMeasure cw w) (uMeasure cw w)
        (uMeasure_nonneg cw hcw w) le_rfl
      · intro m hm h
        simp only [decide_eq_true_eq] at h ⊢
        exact himp m hm h
      · intro m m' hm hmm h
        simp only [decide_eq_true_eq] at h ⊢
        exact hanti m m' hm hmm h
      · intro x hx
        obtain ⟨s, _, rfl⟩ := List.mem_map.mp hx
        exact uMeasure_nonneg cw hcw s

/-- Pointwise length bounds lift to `flatMap`. -/
theorem flatMap_length_mono {α β : Type} (f g : α → List β) :
    ∀ l : List α, (∀ a ∈ l, (f a).length ≤ (g a).length) →
      (l.flatMap f).length ≤ (l.flatMap g).length := by
  intro l
  induction l with
  | nil => intro _; exact Nat.le_refl 0
  | cons a as ih =>
    intro h
    simp only [List.flatMap_cons, List.length_append]
    exact Nat.add_le_add (h a (List.mem_cons_self a as))
      (ih fun x hx => h x (List.mem_cons_of_mem a hx))

/-- Folding two functions over the same list preserves a binary relation
preserved by each step. -/
theorem foldl_rel {α σ τ : Type} (R : σ → τ → Prop) (f : σ → α → σ)
    (g : τ → α → τ) (h : ∀ s t a, R s t → R (f s a) (g t a)) :
    ∀ (l : List α) (s : σ) (t : τ), R s t → R (l.foldl f s) (l.foldl g t) := by
  intro l
  induction l with
  | nil => intro s t h0; exact h0
  | cons x xs ih => intro s t h0; exact ih _ _ (h s t x h0)

/-- The placement decision never reads `plan_only`. -/
theorem hitChoice_ignores_planOnly (cfg : Config) (b : Bool) (ctx : PageCtx)
    (ctext : String) (blkRect : Rect) (cy0 : ℚ) (prefer : String)
    (placed : List Rect) :
    hitChoice { cfg with planOnly := b } ctx ctext blkRect cy0 prefer placed =
      hitChoice cfg ctx ctext blkRect cy0 prefer placed := by
  cases cfg
  rfl

/-- The bookkeeping of `_finalize_pos` never reads `plan_only`. -/
theorem finalizeCore_ignores_planOnly (cfg : Config) (b : Bool)
    (ctx : PageCtx) (q ctext normCt : String) (key : ℤ × String)
    (blkRect : Rect) (cx0 cy0 : ℚ) (posRect : Rect) (c : Core) :
    finalizeCore { cfg with planOnly := b } ctx q ctext normCt key blkRect
        cx0 cy0 posRect c =
      finalizeCore cfg ctx q ctext normCt key blkRect cx0 cy0 posRect c := by
  cases cfg
  rfl

/-- The non-effect state after one hit depends only on the incoming
non-effect state, and not on `plan_only`. -/
theorem processHit_core_planOnly (cfg : Config) (b : Bool)
    (comments : List (String × String)) (ctx : PageCtx) (s t : HSt)
    (hc : s.core = t.core) (qh : String × Rect) :
    (processHit { cfg with planOnly := b } comments ctx s qh).core =
      (processHit cfg comments ctx t qh).core := by
  obtain ⟨c, e⟩ := s
  obtain ⟨c', e'⟩ := t
  have hcc : c = c' := hc
  subst hcc
  simp only [processHit, dedupYHit, hitChoice_ignores_planOnly]
  repeat' split
  all_goals rfl

/-- The non-effect state after the highlight step depends only on the
incoming non-effect state. -/
theorem highlightStep_core_eq (pg : Page) (s t : HSt) (hc : s.core = t.core)
    (x : String × List Rect) :
    (highlightStep pg s x).core = (highlightStep pg t x).core := by
  obtain ⟨c, e⟩ := s
  obtain ⟨c', e'⟩ := t
  have hcc : c = c' := hc
  subst hcc
  simp only [highlightStep]
  split <;> rfl

/-- The non-effect state after a page depends only on the incoming
non-effect state, and not on `plan_only`. -/
theorem processPage_core_planOnly (cfg : Config) (b : Bool)
    (qlist : List String) (comments : List (String × String)) (s t : HSt)
    (hc : s.core = t.core) (pg : Page) :
    (processPage { cfg with planOnly := b } qlist comments s pg).core =
      (processPage cfg qlist comments t pg).core := by
  obtain ⟨c, e⟩ := s
  obtain ⟨c', e'⟩ := t
  have hcc : c = c' := hc
  subst hcc
  simp only [processPage]
  split
  · rfl
  · refine foldl_rel (fun s t : HSt => s.core = t.core) _ _
      (fun s t a h0 => processHit_core_planOnly cfg b comments
        (pageCtxOf pg) s t h0 a) _ _ _ ?_
    refine foldl_rel (fun s t : HSt => s.core = t.core) _ _
      (fun s t a h0 => highlightStep_core_eq pg s t h0 a) _ _ _ ?_
    rfl

/-- Claim C4: for every fixed input, the placements computed by a
plan-only run coincide field-for-field (uid, anchor rectangle, note
rectangle, leader endpoints) with those of a render-mode run, and so do
all three counters: both modes run the identical placement logic. -/
theorem plan_render_same_placements (doc : List Page) (qlist : List String)
    (comments : List (String × String)) (cfg : Config) :
    (runOk doc qlist comments { cfg with planOnly := true }).placements =
      (runOk doc qlist comments { cfg with planOnly := false }).placements ∧
    (runOk doc qlist comments { cfg with planOnly := true }).totalHits =
      (runOk doc qlist comments { cfg with planOnly := false }).totalHits ∧
    (runOk doc qlist comments { cfg with planOnly := true }).totalNotes =
      (runOk doc qlist comments { cfg with planOnly := false }).totalNotes ∧
    (runOk doc qlist comments { cfg with planOnly := true }).totalSkipped =
      (runOk doc qlist comments { cfg with planOnly := false }).totalSkipped
    := by
  have hcore :
      (doc.foldl (processPage { cfg with planOnly := true } qlist comments)
        { core := {} }).core =
      (doc.foldl (processPage { cfg with planOnly := false } qlist comments)
        { core := {} }).core := by
    refine foldl_rel (fun s t : HSt => s.core = t.core) _ _ ?_ doc _ _ ?_
    · intro s t a h0
      exact processPage_core_planOnly { cfg with planOnly := false } true
        qlist comments s t h0 a
    · rfl
  refine ⟨?_, ?_, ?_, ?_⟩ <;>
    · simp only [runOk]
      rw [hcore]

/-- Witness for C7 on `pageB` (scope `"page"`): the two same-page notes
have distinct normalised texts, and the scenario run emits exactly one
note for two identical 5-units-apart occurrences. -/
theorem dedup_at_most_one_per_page_witness :
    (normText (((runOk [pageB] ["hello", "foo"] commentsB
        cfgB).placements.get ⟨0, by decide⟩).explanation) ≠
      normText (((runOk [pageB] ["hello", "foo"] commentsB
        cfgB).placements.get ⟨1, by decide⟩).explanation)) ∧
    ((runOk [pageC] ["dup"] commentsC cfgC).totalNotes = 1 ∧
      (runOk [pageC] ["dup"] commentsC cfgC).placements.length = 1 ∧
      (pageHitsOf pageC ["dup"]).length = 2) :=
  ⟨(dedup_at_most_one_per_page [pageB] ["hello", "foo"] commentsB cfgB rfl
      (by decide)).1 0 1 (by decide) (by decide) (by decide) (by decide),
    (dedup_at_most_one_per_page [pageB] ["hello", "foo"] commentsB cfgB rfl
      (by decide)).2⟩

/-- Claim C10: for every note text, with all other parameters of
`_measure_height_smart` fixed, increasing the target wrap width never
increases the returned wrapped height, and decreasing the font size never
increases it (for a nonnegative glyph metric, tightness, line-height
factor and font sizes). -/
theorem wrap_height_monotone (cw : Char → ℚ) (text : String)
    (W W' fs fs' lhf t : ℚ) (hcw : ∀ c, 0 ≤ cw c) (ht : 0 ≤ t)
    (hlhf : 0 ≤ lhf) (hfs : 0 ≤ fs) (hW : W ≤ W') (hfs0 : 0 ≤ fs')
    (hfs' : fs' ≤ fs) :
    (measureHeightSmart cw text W' fs lhf t).2 ≤
      (measureHeightSmart cw text W fs lhf t).2 ∧
    (measureHeightSmart cw text W fs' lhf t).2 ≤
      (measureHeightSmart cw text W fs lhf t).2 := by
  have hmaxW : max 1 W ≤ max 1 W' := max_le_max le_rfl hW
  constructor
  · simp only [measureHeightSmart]
    refine max_le_max le_rfl ?_
    refine mul_le_mul_of_nonneg_right ?_ (mul_nonneg hlhf hfs)
    refine Nat.cast_le.mpr ?_
    apply flatMap_length_mono
    intro a _
    apply wrapPara_length_mono cw fs fs t (max 1 W) (max 1 W') hcw
    · intro m hm h
      linarith
    · intro m m' hm hmm h
      nlinarith [mul_le_mul_of_nonneg_left hmm (mul_nonneg hfs ht)]
  · simp only [measureHeightSmart]
    refine max_le_max (by linarith) ?_
    refine mul_le_mul (Nat.cast_le.mpr ?_)
      (mul_le_mul_of_nonneg_left hfs' hlhf) (mul_nonneg hlhf hfs0)
      (Nat.cast_nonneg _)
    apply flatMap_length_mono
    intro a _
    apply wrapPara_length_mono cw fs fs' t (max 1 W) (max 1 W) hcw
    · intro m hm h
      nlinarith [mul_le_mul_of_nonneg_right hfs' (mul_nonneg hm ht)]
    · intro m m' hm hmm h
      nlinarith [mul_le_mul_of_nonneg_left hmm (mul_nonneg hfs ht)]

/-- Witness for C10: a 23-character text at width 100 → 120 and font size
12 → 10 under the demo metric. -/
theorem wrap_height_monotone_witness :
    (measureHeightSmart (fun _ => 1/2) "hello world hello world" 120 12
        (118/100) (96/100)).2 ≤
      (measureHeightSmart (fun _ => 1/2) "hello world hello world" 100 12
        (118/100) (96/100)).2 ∧
    (measureHeightSmart (fun _ => 1/2) "hello world hello world" 100 10
        (118/100) (96/100)).2 ≤
      (measureHeightSmart (fun _ => 1/2) "hello world hello world" 100 12
        (118/100) (96/100)).2 :=
  wrap_height_monotone (fun _ => 1/2) "hello world hello world" 100 120
    12 10 (118/100) (96/100) (fun _ => by norm_num) (by norm_num)
    (by norm_num) (by norm_num) (by norm_num) (by norm_num) (by norm_num)

end Anny
